import Mathlib

/-!
# Networking::Context — completion dispatch of the IOCP engine

A shallow embedding of `src/common/context.cpp` (`Context::AsyncRead`,
`Context::AsyncWrite`, `Context::MainLoop`).

* Machine integers are natural numbers reduced explicitly: `std::size_t`
  values modulo `2 ^ 64`, `DWORD`/`ULONG` values modulo `2 ^ 32`.
* Connection objects live in a heap indexed by their address; `delete`
  empties the slot, and a later access through the stale pointer is reported
  as a `Fault` instead of being given a meaning.
* Everything observable that the engine does to its collaborators (user
  callbacks, `Acceptor::Start`, `WSASend`, `WSARecv`, `delete`) is appended
  to a trace, in program order.  Callbacks are recorded only: they are user
  code and are taken not to re-enter the engine.  `WSASend`/`WSARecv` are
  taken to return success or `WSA_IO_PENDING`, so the fatal `CHECK`s pass.
-/

namespace Networking

/-- One byte of a buffer. -/
abbrev Byte := Nat

/-- The address of a Connection object: its index in the heap. -/
abbrev ConnPtr := Nat

/-- Number of values of `std::size_t`. -/
def SIZE_T_MOD : Nat := 2 ^ 64

/-- Number of values of `DWORD` and of `ULONG`. -/
def DWORD_MOD : Nat := 2 ^ 32

/-- The tag `Overlapped::Type`. -/
inductive OverlappedType where
  | Accept
  | Connect
  | Read
  | Write
deriving DecidableEq, Repr

/-- The descriptor `WSABUF`: `len` is a `ULONG`, `buf` is kept as the offset
of the pointer from the start of the buffer it points into. -/
structure WSABUF where
  len : Nat
  buf : Nat
deriving DecidableEq, Repr

/-- Modelled from the spec: class `Connection` (declared in `connection.h`,
which is not among the sources).  It owns a fixed-size read buffer, a
growable write buffer, the counters `sent_bytes` and `total_bytes`, and one
operation context per direction, of which the buffer descriptor `wsa_buf`
is kept here. -/
structure Connection where
  readBuffer : List Byte
  writeBuffer : List Byte
  sentBytes : Nat
  totalBytes : Nat
  readOverlapped : WSABUF
  writeOverlapped : WSABUF
deriving DecidableEq, Repr

/-- Modelled from the spec: `Connection::GetWriteBufferSize`, the capacity
of the write buffer. -/
def Connection.GetWriteBufferSize (c : Connection) : Nat :=
  c.writeBuffer.length

/-- Modelled from the spec: `Connection::ResizeWriteBuffer`, which makes the
capacity exactly `new_size`; bytes already there are kept, new ones are zero. -/
def Connection.ResizeWriteBuffer (c : Connection) (new_size : Nat) : Connection :=
  { c with writeBuffer :=
      c.writeBuffer.take new_size ++ List.replicate (new_size - c.writeBuffer.length) 0 }

/-- Modelled from the spec: `Connection::SetSentBytes` on an unsigned counter. -/
def Connection.SetSentBytes (c : Connection) (value : Nat) : Connection :=
  { c with sentBytes := value % SIZE_T_MOD }

/-- Modelled from the spec: `Connection::SetTotalBytes` on an unsigned counter. -/
def Connection.SetTotalBytes (c : Connection) (value : Nat) : Connection :=
  { c with totalBytes := value % SIZE_T_MOD }

/-- Modelled from the spec: `Connection::GetSentBytes`. -/
def Connection.GetSentBytes (c : Connection) : Nat := c.sentBytes

/-- Modelled from the spec: `Connection::GetTotalBytes`. -/
def Connection.GetTotalBytes (c : Connection) : Nat := c.totalBytes

/-- The C library routine `memcpy_s(dest, destsz, src, count)` as a function
on the destination contents: `count` bytes of `src` replace the first
`count` bytes of `dest` when they fit; otherwise the first `destsz` bytes of
`dest` are cleared and nothing is copied. -/
def memcpy_s (dest : List Byte) (destsz : Nat) (src : List Byte) (count : Nat) : List Byte :=
  if count ≤ destsz then src.take count ++ dest.drop count
  else List.replicate (min destsz dest.length) 0 ++ dest.drop destsz

/-- What the engine does to the outside, in program order. -/
inductive Event where
  | AcceptorStart
  | OnConnected (conn : ConnPtr)
  | OnRead (conn : ConnPtr) (buffer : List Byte) (len : Nat)
  | OnWrite (conn : ConnPtr) (bytes : Nat)
  | OnDisconnected (conn : ConnPtr)
  | WSARecv (conn : ConnPtr) (wsa_buf : WSABUF)
  | WSASend (conn : ConnPtr) (wsa_buf : WSABUF)
  | Delete (conn : ConnPtr)
deriving DecidableEq, Repr

/-- Undefined behaviour the dispatch can run into through a stale pointer. -/
inductive Fault where
  | UseAfterFree (conn : ConnPtr)
  | DoubleFree (conn : ConnPtr)
deriving DecidableEq, Repr

deriving instance DecidableEq for Except

/-- The members of `Context` that `MainLoop` reads: whether `_acceptor` is
non-null and whether each `std::function` callback holds a target. -/
structure Context where
  _acceptor : Bool
  OnConnected : Bool
  OnRead : Bool
  OnWrite : Bool
  OnDisconnected : Bool
deriving DecidableEq, Repr

/-- The constructor `Context::Context() : _acceptor(nullptr)`; the callback
members are default-constructed, hence empty. -/
def Context.new : Context :=
  { _acceptor := false, OnConnected := false, OnRead := false,
    OnWrite := false, OnDisconnected := false }

/-- The state the engine works on: the heap of Connection objects (`none`
is a deleted object) and the trace of what has been done so far. -/
structure Engine where
  heap : List (Option Connection)
  trace : List Event
deriving DecidableEq, Repr

/-- Reading through a Connection pointer. -/
def Engine.deref (s : Engine) (p : ConnPtr) : Option Connection :=
  (s.heap.get? p).join

/-- Writing a Connection object back through its pointer. -/
def Engine.store (s : Engine) (p : ConnPtr) (c : Connection) : Engine :=
  { s with heap := s.heap.set p (some c) }

/-- The effect of `delete` on the heap. -/
def Engine.free (s : Engine) (p : ConnPtr) : Engine :=
  { s with heap := s.heap.set p none }

/-- Appending one event to the trace. -/
def Engine.emit (s : Engine) (e : Event) : Engine :=
  { s with trace := s.trace ++ [e] }

/-- Appending an event when a guard holds (`if (OnRead) OnRead(...)`). -/
def Engine.emitIf (s : Engine) (guard : Bool) (e : Event) : Engine :=
  if guard then s.emit e else s

/-- What `MainLoop` reads of the `Overlapped` a completion points to: its
`type` and its `connection`.  A Read or Write context is the one owned by
that Connection, so its `wsa_buf` is the Connection's. -/
structure Overlapped where
  type : OverlappedType
  connection : ConnPtr
deriving DecidableEq, Repr

/-- `Context::AsyncRead` (context.cpp 34-49). -/
def AsyncRead (s : Engine) (conn : ConnPtr) : Except Fault Engine :=
  match s.deref conn with
  | none => .error (.UseAfterFree conn)
  | some c =>
    let wsa_buf : WSABUF := { len := c.readBuffer.length % DWORD_MOD, buf := 0 }
    let c := { c with readOverlapped := wsa_buf }
    .ok ((s.store conn c).emit (.WSARecv conn wsa_buf))

/-- The first statement of `Context::AsyncWrite` (context.cpp 55-56): grow
the write buffer when it is smaller than `size`. -/
def AsyncWrite.grow (c : Connection) (size : Nat) : Connection :=
  if c.GetWriteBufferSize < size then c.ResizeWriteBuffer size else c

/-- The Connection after `Context::AsyncWrite` (context.cpp 55-65). -/
def AsyncWrite.update (c : Connection) (data : List Byte) (size : Nat) : Connection :=
  let c := AsyncWrite.grow c size
  let c := { c with writeBuffer := memcpy_s c.writeBuffer c.GetWriteBufferSize data size }
  let c := c.SetSentBytes 0
  let c := c.SetTotalBytes size
  { c with writeOverlapped := { len := size % DWORD_MOD, buf := 0 } }

/-- `Context::AsyncWrite` (context.cpp 51-75). -/
def AsyncWrite (s : Engine) (conn : ConnPtr) (data : List Byte) (size : Nat) :
    Except Fault Engine :=
  match s.deref conn with
  | none => .error (.UseAfterFree conn)
  | some c =>
    let c := AsyncWrite.update c data size
    .ok ((s.store conn c).emit (.WSASend conn c.writeOverlapped))

/-- The body of the `while` loop of `Context::MainLoop` (context.cpp 86-157)
for one successfully dequeued completion. -/
def MainLoop.body (ctx : Context) (s : Engine) (bytes_transferred : Nat)
    (overlapped : Option Overlapped) : Except Fault Engine :=
  match overlapped with
  | none => .ok s
  | some ov =>
    if ov.type = .Accept then
      let s := s.emitIf ctx._acceptor .AcceptorStart
      .ok (s.emitIf ctx.OnConnected (.OnConnected ov.connection))
    else if ov.type = .Connect then
      .ok (s.emitIf ctx.OnConnected (.OnConnected ov.connection))
    else if bytes_transferred = 0 then
      let s := s.emitIf ctx.OnDisconnected (.OnDisconnected ov.connection)
      match s.deref ov.connection with
      | none => .error (.DoubleFree ov.connection)
      | some _ => .ok ((s.free ov.connection).emit (.Delete ov.connection))
    else if ov.type = .Read then
      if ctx.OnRead then
        match s.deref ov.connection with
        | none => .error (.UseAfterFree ov.connection)
        | some c => .ok (s.emit (.OnRead ov.connection c.readBuffer bytes_transferred))
      else .ok s
    else if ov.type = .Write then
      match s.deref ov.connection with
      | none => .error (.UseAfterFree ov.connection)
      | some conn =>
        let conn := conn.SetSentBytes (conn.GetSentBytes + bytes_transferred)
        if conn.GetSentBytes < conn.GetTotalBytes then
          let wsa_buf : WSABUF :=
            { len := (conn.GetTotalBytes - conn.GetSentBytes) % DWORD_MOD,
              buf := conn.GetSentBytes }
          let conn := { conn with writeOverlapped := wsa_buf }
          .ok ((s.store ov.connection conn).emit (.WSASend ov.connection wsa_buf))
        else
          .ok ((s.store ov.connection conn).emitIf ctx.OnWrite
            (.OnWrite ov.connection bytes_transferred))
    else .ok s

/-- One result of `GetQueuedCompletionStatus`: the returned `BOOL`, and the
out-parameters `bytes_transferred` (a `DWORD`) and `overlapped`. -/
structure QueuedCompletionStatus where
  result : Bool
  bytes_transferred : Nat
  overlapped : Option Overlapped
deriving DecidableEq, Repr

/-- How a run of `MainLoop` over a finite sequence of dequeue results ends:
`returned` tells whether the loop was left (a dequeue failed) or is still
waiting in `GetQueuedCompletionStatus` for a result beyond the sequence. -/
structure LoopOutcome where
  engine : Engine
  returned : Bool
deriving DecidableEq, Repr

/-- `Context::MainLoop` (context.cpp 77-159) over the sequence of results
that `GetQueuedCompletionStatus` delivers. -/
def MainLoop (ctx : Context) (s : Engine) :
    List QueuedCompletionStatus → Except Fault LoopOutcome
  | [] => .ok { engine := s, returned := false }
  | q :: rest =>
    if q.result then
      match MainLoop.body ctx s q.bytes_transferred q.overlapped with
      | .error f => .error f
      | .ok s1 => MainLoop ctx s1 rest
    else .ok { engine := s, returned := true }

/-- A successfully dequeued completion of `bytes` bytes on the operation
context of kind `type` of Connection `conn`. -/
def completion (type : OverlappedType) (conn : ConnPtr) (bytes : Nat) :
    QueuedCompletionStatus :=
  { result := true, bytes_transferred := bytes,
    overlapped := some { type := type, connection := conn } }

/-- Whether an event is an invocation of the write-complete callback. -/
def isOnWrite : Event → Bool
  | .OnWrite _ _ => true
  | _ => false

/-- Number of invocations of the write-complete callback in a trace. -/
def writeCalls (t : List Event) : Nat :=
  t.countP isOnWrite

/-- The sends that the Write branch of `MainLoop` resubmits when, with
`sent` of `total` bytes sent so far, completions of the given byte counts
arrive and none of them finishes the write. -/
def continuationSends (conn : ConnPtr) (total : Nat) : Nat → List Nat → List Event
  | _, [] => []
  | sent, b :: bs =>
    .WSASend conn { len := (total - (sent + b)) % DWORD_MOD, buf := sent + b } ::
      continuationSends conn total (sent + b) bs

/-- A Connection as it is before any operation: a read buffer of four
bytes, an empty write buffer, both counters zero. -/
def freshConnection : Connection :=
  { readBuffer := [0, 0, 0, 0], writeBuffer := [], sentBytes := 0, totalBytes := 0,
    readOverlapped := { len := 0, buf := 0 }, writeOverlapped := { len := 0, buf := 0 } }

/-- An engine with one live Connection, at address 0, and an empty trace. -/
def freshEngine : Engine :=
  { heap := [some freshConnection], trace := [] }

/-- A Context with an Acceptor registered and all four callbacks set. -/
def allCallbacks : Context :=
  { _acceptor := true, OnConnected := true, OnRead := true,
    OnWrite := true, OnDisconnected := true }

/-- The ten bytes of the text HELLOWORLD. -/
def HELLOWORLD : List Byte := [72, 69, 76, 76, 79, 87, 79, 82, 76, 68]

/-- One thing that happens to the engine: a call of `AsyncRead` or
`AsyncWrite` by the user, or a dequeued completion dispatched by `MainLoop`. -/
inductive Action where
  | AsyncRead (conn : ConnPtr)
  | AsyncWrite (conn : ConnPtr) (data : List Byte) (size : Nat)
  | Dispatch (bytes_transferred : Nat) (overlapped : Option Overlapped)
deriving DecidableEq, Repr

/-- The effect of one action. -/
def Action.apply (ctx : Context) (s : Engine) : Action → Except Fault Engine
  | .AsyncRead conn => Networking.AsyncRead s conn
  | .AsyncWrite conn data size => Networking.AsyncWrite s conn data size
  | .Dispatch bytes_transferred overlapped => MainLoop.body ctx s bytes_transferred overlapped

/-- The effect of a sequence of actions, in order. -/
def run (ctx : Context) (s : Engine) : List Action → Except Fault Engine
  | [] => .ok s
  | a :: rest =>
    match a.apply ctx s with
    | .error f => .error f
    | .ok s1 => run ctx s1 rest

/-- The invariant `sent_bytes ≤ total_bytes`, for every live Connection. -/
def Engine.countersOrdered (s : Engine) : Prop :=
  ∀ o ∈ s.heap, ∀ c ∈ o, c.sentBytes ≤ c.totalBytes

instance (s : Engine) : Decidable s.countersOrdered :=
  inferInstanceAs (Decidable (∀ o ∈ s.heap, ∀ c ∈ o, c.sentBytes ≤ c.totalBytes))

/-- An action is within bounds in a state when, if it is a Write completion
on a live Connection, it reports no more bytes than that Connection still
has to send (`total_bytes - sent_bytes`). -/
def Action.inBounds (s : Engine) : Action → Prop
  | .Dispatch bytes_transferred (some ov) =>
    ov.type = .Write → ∀ c ∈ s.deref ov.connection, c.sentBytes + bytes_transferred ≤ c.totalBytes
  | _ => True

instance (s : Engine) (a : Action) : Decidable (a.inBounds s) := by
  cases a with
  | Dispatch b ov =>
    cases ov with
    | none => exact inferInstanceAs (Decidable True)
    | some ov =>
      exact inferInstanceAs (Decidable (ov.type = .Write →
        ∀ c ∈ s.deref ov.connection, c.sentBytes + b ≤ c.totalBytes))
  | AsyncRead _ => exact inferInstanceAs (Decidable True)
  | AsyncWrite _ _ _ => exact inferInstanceAs (Decidable True)

/-- Whether every action of a run is within bounds in the state it is
applied to. -/
def runInBounds (ctx : Context) : Engine → List Action → Bool
  | _, [] => true
  | s, a :: rest =>
    decide (a.inBounds s) &&
      match a.apply ctx s with
      | .error _ => true
      | .ok s1 => runInBounds ctx s1 rest

/-- The actions of the HELLOWORLD scenario: a write of ten bytes, completed
by 4 and then 6 bytes. -/
def helloworldActions : List Action :=
  [.AsyncWrite 0 HELLOWORLD 10,
   .Dispatch 4 (some { type := .Write, connection := 0 }),
   .Dispatch 6 (some { type := .Write, connection := 0 })]

/-- The state in which the HELLOWORLD scenario ends. -/
def helloworldDone : Engine :=
  { heap := [some { readBuffer := [0, 0, 0, 0], writeBuffer := HELLOWORLD,
                    sentBytes := 10, totalBytes := 10,
                    readOverlapped := { len := 0, buf := 0 },
                    writeOverlapped := { len := 6, buf := 4 } }],
    trace := [.WSASend 0 { len := 10, buf := 0 }, .WSASend 0 { len := 6, buf := 4 },
              .OnWrite 0 6] }

/-- The HELLOWORLD scenario after the first completion: 4 of 10 bytes are
sent and the send of the remaining 6 is in flight. -/
def helloworldHalf : Engine :=
  { heap := [some { readBuffer := [0, 0, 0, 0], writeBuffer := HELLOWORLD,
                    sentBytes := 4, totalBytes := 10,
                    readOverlapped := { len := 0, buf := 0 },
                    writeOverlapped := { len := 6, buf := 4 } }],
    trace := [.WSASend 0 { len := 10, buf := 0 }, .WSASend 0 { len := 6, buf := 4 }] }

/-- The loop body applied, in order, to every dequeue result of a sequence,
whatever its `result`. -/
def dispatchAll (ctx : Context) (s : Engine) :
    List QueuedCompletionStatus → Except Fault Engine
  | [] => .ok s
  | q :: rest =>
    match MainLoop.body ctx s q.bytes_transferred q.overlapped with
    | .error f => .error f
    | .ok s1 => dispatchAll ctx s1 rest

/-- The outcome of a run of `MainLoop` that ends in engine state `e`. -/
def LoopOutcome.of (returned : Bool) (e : Engine) : LoopOutcome :=
  { engine := e, returned := returned }

/-- The invariant `total_bytes ≤` capacity of the write buffer, for every
live Connection. -/
def Engine.bufferCovers (s : Engine) : Prop :=
  ∀ o ∈ s.heap, ∀ c ∈ o, c.totalBytes ≤ c.GetWriteBufferSize

instance (s : Engine) : Decidable s.bufferCovers :=
  inferInstanceAs (Decidable (∀ o ∈ s.heap, ∀ c ∈ o, c.totalBytes ≤ c.GetWriteBufferSize))

/-- The argument `data` of a call of `AsyncWrite` points to at least `size`
bytes (all that `memcpy_s` reads). -/
def Action.dataOk : Action → Prop
  | .AsyncWrite _ data size => size ≤ data.length
  | _ => True

instance (a : Action) : Decidable a.dataOk := by
  cases a with
  | AsyncWrite _ data size => exact inferInstanceAs (Decidable (size ≤ data.length))
  | AsyncRead _ => exact inferInstanceAs (Decidable True)
  | Dispatch _ _ => exact inferInstanceAs (Decidable True)

/-- The HELLOWORLD scenario right after `AsyncWrite`: nothing is sent yet
and the send of all 10 bytes is in flight. -/
def helloworldStart : Engine :=
  { heap := [some { readBuffer := [0, 0, 0, 0], writeBuffer := HELLOWORLD,
                    sentBytes := 0, totalBytes := 10,
                    readOverlapped := { len := 0, buf := 0 },
                    writeOverlapped := { len := 10, buf := 0 } }],
    trace := [.WSASend 0 { len := 10, buf := 0 }] }

/-- The four user callbacks of a Context. -/
inductive Callback where
  | Connected
  | Disconnected
  | Read
  | Write
deriving DecidableEq, Repr

/-- The callback that an event is an invocation of, if it is one. -/
def Event.callback : Event → Option Callback
  | .OnConnected _ => some .Connected
  | .OnDisconnected _ => some .Disconnected
  | .OnRead _ _ _ => some .Read
  | .OnWrite _ _ => some .Write
  | _ => none

/-- Whether a callback of the Context holds a target. -/
def Context.isSet (ctx : Context) : Callback → Bool
  | .Connected => ctx.OnConnected
  | .Disconnected => ctx.OnDisconnected
  | .Read => ctx.OnRead
  | .Write => ctx.OnWrite

/-- What the engine itself did according to a trace: the trace without the
invocations of user callbacks. -/
def engineActions (t : List Event) : List Event :=
  t.filter fun e => e.callback.isNone

/-- The callback that the classification of `MainLoop` selects for a
completion, from the kind of the operation, whether `bytes_transferred` is
zero and whether the advanced `sent_bytes` is below `total_bytes` (which
matters for Write only); `none` when the completion selects no callback. -/
def classify (type : OverlappedType) (zero below : Bool) : Option Callback :=
  match type with
  | .Accept => some .Connected
  | .Connect => some .Connected
  | .Read => if zero then some .Disconnected else some .Read
  | .Write => if zero then some .Disconnected else if below then none else some .Write

/-- The callbacks invoked when the selected callback is `k`: that one when
the Context has it set, none otherwise. -/
def invoked (ctx : Context) : Option Callback → List Callback
  | none => []
  | some k => if ctx.isSet k then [k] else []

/-- Whether an event is a call of `WSASend`. -/
def isWSASend : Event → Bool
  | .WSASend _ _ => true
  | _ => false

/-- Number of sends submitted in a trace. -/
def sendCalls (t : List Event) : Nat :=
  t.countP isWSASend

/-- Whether a sequence of Write completions on Connection `conn` fits the
sends in flight: each arrives while a send is in flight (`sent_bytes` below
`total_bytes`) and reports a nonzero byte count not above the length of the
descriptor last submitted (`wsa_buf.len` of the Write context). -/
def completionsFit (ctx : Context) (conn : ConnPtr) : Engine → List Nat → Bool
  | _, [] => true
  | s, b :: rest =>
    match s.deref conn with
    | none => false
    | some c =>
      decide (0 < b) && decide (b ≤ c.writeOverlapped.len) &&
        decide (c.sentBytes < c.totalBytes) &&
        match MainLoop.body ctx s b (some { type := .Write, connection := conn }) with
        | .error _ => false
        | .ok s1 => completionsFit ctx conn s1 rest

/-! ## The heap -/

theorem Engine.deref_emit (s : Engine) (e : Event) (p : ConnPtr) :
    (s.emit e).deref p = s.deref p := rfl

theorem Engine.deref_emitIf (s : Engine) (g : Bool) (e : Event) (p : ConnPtr) :
    (s.emitIf g e).deref p = s.deref p := by
  cases g <;> rfl

theorem Engine.deref_lt {s : Engine} {p : ConnPtr} {c : Connection}
    (h : s.deref p = some c) : p < s.heap.length := by
  unfold Engine.deref at h
  by_contra hlt
  rw [List.get?_eq_none.mpr (Nat.le_of_not_lt hlt)] at h
  simp at h

theorem Engine.deref_store_self {s : Engine} {p : ConnPtr} {c0 : Connection}
    (h : s.deref p = some c0) (c : Connection) : (s.store p c).deref p = some c := by
  have hlt := Engine.deref_lt h
  simp [Engine.deref, Engine.store, hlt]

theorem Engine.deref_store_other (s : Engine) {p q : ConnPtr} (h : p ≠ q) (c : Connection) :
    (s.store p c).deref q = s.deref q := by
  simp [Engine.deref, Engine.store, List.getElem?_set_ne h]

theorem Engine.deref_free_self (s : Engine) (p : ConnPtr) : (s.free p).deref p = none := by
  by_cases hlt : p < s.heap.length
  · simp [Engine.deref, Engine.free, hlt]
  · have h : (s.heap.set p none)[p]? = none := by
      apply List.getElem?_eq_none
      simpa using Nat.le_of_not_lt hlt
    simp [Engine.deref, Engine.free, h]

theorem Engine.deref_free_other (s : Engine) {p q : ConnPtr} (h : p ≠ q) :
    (s.free p).deref q = s.deref q := by
  simp [Engine.deref, Engine.free, List.getElem?_set_ne h]

/-! ## Single steps of the loop body -/

theorem body_write_continue (ctx : Context) {s : Engine} {conn : ConnPtr} {c : Connection}
    {b : Nat} (hlive : s.deref conn = some c) (hb : 0 < b)
    (hlt : c.sentBytes + b < c.totalBytes) (hrange : c.totalBytes < SIZE_T_MOD) :
    MainLoop.body ctx s b (some { type := .Write, connection := conn }) =
      .ok ((s.store conn { c with
              sentBytes := c.sentBytes + b
              writeOverlapped :=
                { len := (c.totalBytes - (c.sentBytes + b)) % DWORD_MOD,
                  buf := c.sentBytes + b } }).emit
            (.WSASend conn { len := (c.totalBytes - (c.sentBytes + b)) % DWORD_MOD,
                             buf := c.sentBytes + b })) := by
  have hmod : (c.sentBytes + b) % SIZE_T_MOD = c.sentBytes + b :=
    Nat.mod_eq_of_lt (by omega)
  have hb0 : b ≠ 0 := by omega
  simp [MainLoop.body, hlive, hb0, Connection.SetSentBytes, Connection.GetSentBytes,
    Connection.GetTotalBytes, hmod, hlt]

theorem body_write_finish (ctx : Context) {s : Engine} {conn : ConnPtr} {c : Connection}
    {b : Nat} (hlive : s.deref conn = some c) (hb : 0 < b)
    (heq : c.sentBytes + b = c.totalBytes) (hrange : c.totalBytes < SIZE_T_MOD) :
    MainLoop.body ctx s b (some { type := .Write, connection := conn }) =
      .ok ((s.store conn { c with sentBytes := c.totalBytes }).emitIf ctx.OnWrite
            (.OnWrite conn b)) := by
  have hmod : (c.sentBytes + b) % SIZE_T_MOD = c.totalBytes := by
    rw [heq]; exact Nat.mod_eq_of_lt hrange
  have hb0 : b ≠ 0 := by omega
  simp [MainLoop.body, hlive, hb0, Connection.SetSentBytes, Connection.GetSentBytes,
    Connection.GetTotalBytes, hmod]

/-! ## Runs of the loop -/

theorem MainLoop_append (ctx : Context) :
    ∀ (xs ys : List QueuedCompletionStatus) (s s1 : Engine),
      MainLoop ctx s xs = .ok { engine := s1, returned := false } →
      MainLoop ctx s (xs ++ ys) = MainLoop ctx s1 ys
  | [], ys, s, s1, h => by
    simp [MainLoop] at h
    simp [h]
  | q :: xs, ys, s, s1, h => by
    simp only [MainLoop, List.cons_append] at h ⊢
    by_cases hq : q.result = true
    · simp only [hq, if_true] at h ⊢
      cases hb : MainLoop.body ctx s q.bytes_transferred q.overlapped with
      | error f => simp [hb] at h
      | ok s2 =>
        simp only [hb] at h ⊢
        exact MainLoop_append ctx xs ys s2 s1 h
    · simp [hq] at h

theorem MainLoop_continuations (ctx : Context) (conn : ConnPtr) :
    ∀ (bs : List Nat) (s : Engine) (c : Connection),
      s.deref conn = some c → (∀ b ∈ bs, 0 < b) →
      c.sentBytes + bs.sum < c.totalBytes → c.totalBytes < SIZE_T_MOD →
      ∃ s1 c1, MainLoop ctx s (bs.map (completion .Write conn)) =
          .ok { engine := s1, returned := false } ∧
        s1.deref conn = some c1 ∧
        c1.sentBytes = c.sentBytes + bs.sum ∧
        c1.totalBytes = c.totalBytes ∧
        s1.trace = s.trace ++ continuationSends conn c.totalBytes c.sentBytes bs
  | [], s, c, hlive, _, _, _ => by
    exact ⟨s, c, by simp [MainLoop], hlive, by simp, rfl, by simp [continuationSends]⟩
  | b :: bs, s, c, hlive, hpos, hlt, hrange => by
    have hb : 0 < b := hpos b (by simp)
    simp only [List.sum_cons] at hlt
    have hstep := body_write_continue ctx hlive hb (by omega) hrange
    have hlive1 := Engine.deref_store_self hlive { c with
      sentBytes := c.sentBytes + b
      writeOverlapped :=
        { len := (c.totalBytes - (c.sentBytes + b)) % DWORD_MOD, buf := c.sentBytes + b } }
    have hlt1 : c.sentBytes + b + bs.sum < c.totalBytes := by omega
    obtain ⟨s1, c1, hrun, hl1, hs1, ht1, htr1⟩ :=
      MainLoop_continuations ctx conn bs _ _
        ((Engine.deref_emit _ (.WSASend conn
          { len := (c.totalBytes - (c.sentBytes + b)) % DWORD_MOD,
            buf := c.sentBytes + b }) conn).trans hlive1)
        (fun x hx => hpos x (by simp [hx])) hlt1 hrange
    refine ⟨s1, c1, ?_, hl1, ?_, ht1, ?_⟩
    · simp only [List.map_cons, MainLoop, completion, if_true]
      rw [hstep]
      exact hrun
    · simp only [List.sum_cons]
      rw [hs1]
      show c.sentBytes + b + bs.sum = c.sentBytes + (b + bs.sum)
      omega
    · rw [htr1]
      simp [continuationSends, Engine.emit, Engine.store]

theorem writeCalls_continuationSends (conn : ConnPtr) (total : Nat) :
    ∀ (bs : List Nat) (sent : Nat), writeCalls (continuationSends conn total sent bs) = 0
  | [], _ => rfl
  | b :: bs, sent => by
    have ih := writeCalls_continuationSends conn total bs (sent + b)
    simp only [writeCalls] at ih
    simp [continuationSends, writeCalls, isOnWrite, ih]

/-! ## AsyncWrite -/

theorem AsyncWrite_ok {s : Engine} {conn : ConnPtr} {c : Connection}
    (hlive : s.deref conn = some c) (data : List Byte) (size : Nat) :
    AsyncWrite s conn data size =
      .ok ((s.store conn (AsyncWrite.update c data size)).emit
            (.WSASend conn { len := size % DWORD_MOD, buf := 0 })) := by
  simp [AsyncWrite, hlive, AsyncWrite.update]

theorem update_sentBytes (c : Connection) (data : List Byte) (size : Nat) :
    (AsyncWrite.update c data size).sentBytes = 0 := by
  simp [AsyncWrite.update, Connection.SetSentBytes, Connection.SetTotalBytes, SIZE_T_MOD]

theorem update_totalBytes (c : Connection) (data : List Byte) (size : Nat) :
    (AsyncWrite.update c data size).totalBytes = size % SIZE_T_MOD := by
  simp [AsyncWrite.update, Connection.SetSentBytes, Connection.SetTotalBytes]

/-- What holds after `AsyncWrite` followed by completions that do not yet
finish the write. -/
theorem AsyncWrite_then_continuations (ctx : Context) {s : Engine} {conn : ConnPtr}
    {c : Connection} (hlive : s.deref conn = some c) (data : List Byte) {size : Nat}
    (hrange : size < SIZE_T_MOD) {bs : List Nat} (hpos : ∀ b ∈ bs, 0 < b)
    (hlt : bs.sum < size) :
    ∃ s0 s1 c1, AsyncWrite s conn data size = .ok s0 ∧
      MainLoop ctx s0 (bs.map (completion .Write conn)) =
        .ok { engine := s1, returned := false } ∧
      s1.deref conn = some c1 ∧ c1.sentBytes = bs.sum ∧ c1.totalBytes = size ∧
      s1.trace = s.trace ++ .WSASend conn { len := size % DWORD_MOD, buf := 0 } ::
        continuationSends conn size 0 bs := by
  have hmod : size % SIZE_T_MOD = size := Nat.mod_eq_of_lt hrange
  have hlive0 : ((s.store conn (AsyncWrite.update c data size)).emit
      (.WSASend conn { len := size % DWORD_MOD, buf := 0 })).deref conn =
      some (AsyncWrite.update c data size) :=
    (Engine.deref_emit _ _ conn).trans (Engine.deref_store_self hlive _)
  obtain ⟨s1, c1, hrun, hl1, hs1, ht1, htr1⟩ :=
    MainLoop_continuations ctx conn bs _ _ hlive0 hpos
      (by rw [update_sentBytes, update_totalBytes, hmod]; omega)
      (by rw [update_totalBytes, hmod]; exact hrange)
  refine ⟨_, s1, c1, AsyncWrite_ok hlive data size, hrun, hl1, ?_, ?_, ?_⟩
  · rw [hs1, update_sentBytes]; omega
  · rw [ht1, update_totalBytes, hmod]
  · rw [htr1, update_sentBytes, update_totalBytes, hmod]
    simp [Engine.emit, Engine.store]

/-- C1: after `AsyncWrite(conn, data, size)`, when Write completions with
nonzero byte counts `pre ++ [last]` summing exactly to `size` are dispatched
by `MainLoop`, the write-complete callback is not invoked while any of the
first `N - 1` completions is dispatched, and is invoked exactly once in all,
by the dispatch of the last completion. -/
theorem write_callback_exactly_once (ctx : Context) (s : Engine) (conn : ConnPtr)
    (c : Connection) (data : List Byte) (size : Nat) (pre : List Nat) (last : Nat)
    (hcb : ctx.OnWrite = true) (hlive : s.deref conn = some c)
    (hrange : size < SIZE_T_MOD)
    (hpre : ∀ b ∈ pre, 0 < b) (hlast : 0 < last) (hsum : pre.sum + last = size) :
    ∃ s0 s1 s2, AsyncWrite s conn data size = .ok s0 ∧
      (∀ k, ∃ sk, MainLoop ctx s0 ((pre.take k).map (completion .Write conn)) =
          .ok { engine := sk, returned := false } ∧
        writeCalls sk.trace = writeCalls s.trace) ∧
      MainLoop ctx s0 (pre.map (completion .Write conn)) =
        .ok { engine := s1, returned := false } ∧
      MainLoop.body ctx s1 last (some { type := .Write, connection := conn }) = .ok s2 ∧
      writeCalls s2.trace = writeCalls s1.trace + 1 ∧
      MainLoop ctx s0 ((pre ++ [last]).map (completion .Write conn)) =
        .ok { engine := s2, returned := false } ∧
      writeCalls s2.trace = writeCalls s.trace + 1 := by
  obtain ⟨s0, s1, c1, h0, hrun, hl1, hs1, ht1, htr1⟩ :=
    AsyncWrite_then_continuations ctx hlive data hrange hpre (by omega)
  have hfin := body_write_finish ctx hl1 hlast (by rw [hs1, ht1]; exact hsum)
    (by rw [ht1]; exact hrange)
  have hcount1 : writeCalls s1.trace = writeCalls s.trace := by
    rw [htr1]
    have := writeCalls_continuationSends conn size pre 0
    simp only [writeCalls] at this ⊢
    simp [isOnWrite, this]
  refine ⟨s0, s1, _, h0, ?_, hrun, hfin, ?_, ?_, ?_⟩
  · intro k
    have hle : (pre.take k).sum ≤ pre.sum := by
      have h := congrArg List.sum (List.take_append_drop k pre)
      rw [List.sum_append] at h
      omega
    obtain ⟨s0k, sk, ck, h0k, hrunk, _, _, _, htrk⟩ :=
      AsyncWrite_then_continuations ctx hlive data hrange
        (fun b hb => hpre b (List.mem_of_mem_take hb)) (by omega : (pre.take k).sum < size)
    have : s0k = s0 := by
      rw [h0] at h0k
      injection h0k with h
      exact h.symm
    subst this
    refine ⟨sk, hrunk, ?_⟩
    rw [htrk]
    have := writeCalls_continuationSends conn size (pre.take k) 0
    simp only [writeCalls] at this ⊢
    simp [isOnWrite, this]
  · simp [Engine.emitIf, hcb, Engine.emit, Engine.store, writeCalls, isOnWrite]
  · rw [List.map_append, MainLoop_append ctx _ _ _ _ hrun]
    simp [MainLoop, completion, hfin]
  · rw [← hcount1]
    simp [Engine.emitIf, hcb, Engine.emit, Engine.store, writeCalls, isOnWrite]

/-- C1, at a concrete input: a write of 7 bytes completed in chunks of 3, 2
and 2 bytes. -/
theorem write_callback_exactly_once_witness :
    allCallbacks.OnWrite = true ∧
    freshEngine.deref 0 = some freshConnection ∧
    7 < SIZE_T_MOD ∧ (∀ b ∈ [3, 2], 0 < b) ∧ 0 < 2 ∧ [3, 2].sum + 2 = 7 ∧
    ∃ s0 s1 s2, AsyncWrite freshEngine 0 [1, 2, 3, 4, 5, 6, 7] 7 = .ok s0 ∧
      (∀ k, ∃ sk, MainLoop allCallbacks s0 (([3, 2].take k).map (completion .Write 0)) =
          .ok { engine := sk, returned := false } ∧
        writeCalls sk.trace = writeCalls freshEngine.trace) ∧
      MainLoop allCallbacks s0 ([3, 2].map (completion .Write 0)) =
        .ok { engine := s1, returned := false } ∧
      MainLoop.body allCallbacks s1 2 (some { type := .Write, connection := 0 }) = .ok s2 ∧
      writeCalls s2.trace = writeCalls s1.trace + 1 ∧
      MainLoop allCallbacks s0 (([3, 2] ++ [2]).map (completion .Write 0)) =
        .ok { engine := s2, returned := false } ∧
      writeCalls s2.trace = writeCalls freshEngine.trace + 1 :=
  ⟨rfl, rfl, by decide, by decide, by decide, rfl,
    write_callback_exactly_once allCallbacks freshEngine 0 freshConnection
      [1, 2, 3, 4, 5, 6, 7] 7 [3, 2] 2 rfl rfl (by decide) (by decide) (by decide) rfl⟩

/-- C2: after `AsyncWrite(conn, data, size)`, when Write completions with
nonzero byte counts `pre ++ [last]` summing to `size` are dispatched, the
trace gains the initial send, one continuation send per non-final
completion, and then a single invocation of the write-complete callback
whose argument is `last`, the byte count of the final completion. -/
theorem write_callback_value (ctx : Context) (s : Engine) (conn : ConnPtr)
    (c : Connection) (data : List Byte) (size : Nat) (pre : List Nat) (last : Nat)
    (hcb : ctx.OnWrite = true) (hlive : s.deref conn = some c)
    (hrange : size < SIZE_T_MOD)
    (hpre : ∀ b ∈ pre, 0 < b) (hlast : 0 < last) (hsum : pre.sum + last = size) :
    ∃ s0 s2, AsyncWrite s conn data size = .ok s0 ∧
      MainLoop ctx s0 ((pre ++ [last]).map (completion .Write conn)) =
        .ok { engine := s2, returned := false } ∧
      s2.trace = s.trace ++ .WSASend conn { len := size % DWORD_MOD, buf := 0 } ::
        (continuationSends conn size 0 pre ++ [.OnWrite conn last]) ∧
      s2.trace.filter isOnWrite = s.trace.filter isOnWrite ++ [.OnWrite conn last] := by
  obtain ⟨s0, s1, c1, h0, hrun, hl1, hs1, ht1, htr1⟩ :=
    AsyncWrite_then_continuations ctx hlive data hrange hpre (by omega)
  have hfin := body_write_finish ctx hl1 hlast (by rw [hs1, ht1]; exact hsum)
    (by rw [ht1]; exact hrange)
  have htr2 : ((s1.store conn { c1 with sentBytes := c1.totalBytes }).emitIf ctx.OnWrite
      (.OnWrite conn last)).trace = s.trace ++
        .WSASend conn { len := size % DWORD_MOD, buf := 0 } ::
        (continuationSends conn size 0 pre ++ [.OnWrite conn last]) := by
    simp [Engine.emitIf, hcb, Engine.emit, Engine.store, htr1]
  refine ⟨s0, _, h0, ?_, htr2, ?_⟩
  · rw [List.map_append, MainLoop_append ctx _ _ _ _ hrun]
    simp [MainLoop, completion, hfin]
  · rw [htr2]
    have hnone : (continuationSends conn size 0 pre).filter isOnWrite = [] := by
      have := writeCalls_continuationSends conn size pre 0
      simpa [writeCalls, List.countP_eq_length_filter] using this
    simp [List.filter_cons, isOnWrite, hnone]

/-- C2, the scenario of the specification: `AsyncWrite(conn, "HELLOWORLD", 10)`
completed by 4 and then 6 bytes. -/
theorem write_callback_value_witness :
    allCallbacks.OnWrite = true ∧
    freshEngine.deref 0 = some freshConnection ∧
    10 < SIZE_T_MOD ∧ (∀ b ∈ [4], 0 < b) ∧ 0 < 6 ∧ [4].sum + 6 = 10 ∧
    ∃ s0 s2, AsyncWrite freshEngine 0 HELLOWORLD 10 = .ok s0 ∧
      MainLoop allCallbacks s0 (([4] ++ [6]).map (completion .Write 0)) =
        .ok { engine := s2, returned := false } ∧
      s2.trace = freshEngine.trace ++ .WSASend 0 { len := 10 % DWORD_MOD, buf := 0 } ::
        (continuationSends 0 10 0 [4] ++ [.OnWrite 0 6]) ∧
      s2.trace.filter isOnWrite = freshEngine.trace.filter isOnWrite ++ [.OnWrite 0 6] :=
  ⟨rfl, rfl, by decide, by decide, by decide, rfl,
    write_callback_value allCallbacks freshEngine 0 freshConnection HELLOWORLD 10 [4] 6
      rfl rfl (by decide) (by decide) (by decide) rfl⟩

/-- The scenario of C2 evaluated: after the first completion (4 bytes) the
trace holds the two sends and no callback; after the second (6 bytes) it
ends with the one callback invocation, whose argument is 6. -/
theorem helloworld_scenario :
    (AsyncWrite freshEngine 0 HELLOWORLD 10 >>= fun s0 =>
      MainLoop allCallbacks s0 [completion .Write 0 4]).map (fun o => o.engine.trace) =
      .ok [.WSASend 0 { len := 10, buf := 0 }, .WSASend 0 { len := 6, buf := 4 }] ∧
    (AsyncWrite freshEngine 0 HELLOWORLD 10 >>= fun s0 =>
      MainLoop allCallbacks s0 [completion .Write 0 4, completion .Write 0 6]).map
        (fun o => o.engine.trace) =
      .ok [.WSASend 0 { len := 10, buf := 0 }, .WSASend 0 { len := 6, buf := 4 },
           .OnWrite 0 6] := by
  decide

/-- C3: a completion of kind Read or Write with `bytes_transferred == 0` on
a live Connection makes `MainLoop` invoke the disconnected-callback once
(when it is set) and then delete the Connection, and nothing else: no read-
or write-callback, no send, no counter update; every other Connection is
left as it was. -/
theorem zero_bytes_means_disconnect (ctx : Context) (s : Engine) (type : OverlappedType)
    (conn : ConnPtr) (c : Connection)
    (hkind : type = .Read ∨ type = .Write) (hlive : s.deref conn = some c) :
    ∃ s1, MainLoop.body ctx s 0 (some { type := type, connection := conn }) = .ok s1 ∧
      s1.trace = s.trace ++
        (if ctx.OnDisconnected then [Event.OnDisconnected conn] else []) ++ [.Delete conn] ∧
      s1.heap = s.heap.set conn none ∧
      s1.deref conn = none ∧
      (∀ q, q ≠ conn → s1.deref q = s.deref q) := by
  have hbody : MainLoop.body ctx s 0 (some { type := type, connection := conn }) =
      .ok (((s.emitIf ctx.OnDisconnected (.OnDisconnected conn)).free conn).emit
        (.Delete conn)) := by
    rcases hkind with h | h <;>
      simp [MainLoop.body, h, Engine.deref_emitIf, hlive]
  refine ⟨_, hbody, ?_, ?_, ?_, ?_⟩
  · cases ctx.OnDisconnected <;> simp [Engine.emitIf, Engine.emit, Engine.free]
  · cases ctx.OnDisconnected <;> simp [Engine.emitIf, Engine.emit, Engine.free]
  · rw [Engine.deref_emit, Engine.deref_free_self]
  · intro q hq
    rw [Engine.deref_emit, Engine.deref_free_other _ (Ne.symm hq), Engine.deref_emitIf]

/-- C3, at a concrete input: a zero-byte Write completion on the
Connection at address 0. -/
theorem zero_bytes_means_disconnect_witness :
    (OverlappedType.Write = .Read ∨ OverlappedType.Write = .Write) ∧
    freshEngine.deref 0 = some freshConnection ∧
    ∃ s1, MainLoop.body allCallbacks freshEngine 0
        (some { type := .Write, connection := 0 }) = .ok s1 ∧
      s1.trace = freshEngine.trace ++
        (if allCallbacks.OnDisconnected then [Event.OnDisconnected 0] else []) ++
          [.Delete 0] ∧
      s1.heap = freshEngine.heap.set 0 none ∧
      s1.deref 0 = none ∧
      (∀ q, q ≠ 0 → s1.deref q = freshEngine.deref q) :=
  ⟨Or.inr rfl, rfl,
    zero_bytes_means_disconnect allCallbacks freshEngine .Write 0 freshConnection
      (Or.inr rfl) rfl⟩

theorem body_accept (ctx : Context) (s : Engine) (conn : ConnPtr) (bytes_transferred : Nat) :
    MainLoop.body ctx s bytes_transferred (some { type := .Accept, connection := conn }) =
      .ok { s with trace := s.trace ++
        (if ctx._acceptor then [Event.AcceptorStart] else []) ++
        (if ctx.OnConnected then [Event.OnConnected conn] else []) } := by
  cases h1 : ctx._acceptor <;> cases h2 : ctx.OnConnected <;>
    simp [MainLoop.body, Engine.emitIf, Engine.emit, h1, h2]

theorem body_connect (ctx : Context) (s : Engine) (conn : ConnPtr) (bytes_transferred : Nat) :
    MainLoop.body ctx s bytes_transferred (some { type := .Connect, connection := conn }) =
      .ok { s with trace := s.trace ++
        (if ctx.OnConnected then [Event.OnConnected conn] else []) } := by
  cases h2 : ctx.OnConnected <;>
    simp [MainLoop.body, Engine.emitIf, Engine.emit, h2]

/-- C4: a completion of kind Accept or Connect, whatever its byte count and
whatever the state, leaves the heap (every Connection, with its counters)
untouched, and appends to the trace nothing but, at most, the re-arming of
the Acceptor and an invocation of the connected-callback. -/
theorem accept_connect_only_connected (ctx : Context) (s : Engine) (type : OverlappedType)
    (conn : ConnPtr) (bytes_transferred : Nat)
    (hkind : type = .Accept ∨ type = .Connect) :
    ∃ s1 evs, MainLoop.body ctx s bytes_transferred
        (some { type := type, connection := conn }) = .ok s1 ∧
      s1.heap = s.heap ∧ s1.trace = s.trace ++ evs ∧
      (∀ e ∈ evs, e = .AcceptorStart ∨ e = .OnConnected conn) := by
  rcases hkind with h | h
  · subst h
    refine ⟨_, (if ctx._acceptor then [Event.AcceptorStart] else []) ++
      (if ctx.OnConnected then [Event.OnConnected conn] else []),
      body_accept ctx s conn bytes_transferred, rfl, by simp, ?_⟩
    intro e he
    cases h1 : ctx._acceptor <;> cases h2 : ctx.OnConnected <;> simp [h1, h2] at he
    · exact Or.inr he
    · exact Or.inl he
    · exact he
  · subst h
    refine ⟨_, (if ctx.OnConnected then [Event.OnConnected conn] else []),
      body_connect ctx s conn bytes_transferred, rfl, rfl, ?_⟩
    intro e he
    cases h2 : ctx.OnConnected <;> simp [h2] at he
    exact Or.inr he

/-- C4, at a concrete input: an Accept completion of zero bytes. -/
theorem accept_connect_only_connected_witness :
    (OverlappedType.Accept = .Accept ∨ OverlappedType.Accept = .Connect) ∧
    ∃ s1 evs, MainLoop.body allCallbacks freshEngine 0
        (some { type := .Accept, connection := 0 }) = .ok s1 ∧
      s1.heap = freshEngine.heap ∧ s1.trace = freshEngine.trace ++ evs ∧
      (∀ e ∈ evs, e = .AcceptorStart ∨ e = .OnConnected 0) :=
  ⟨Or.inl rfl, accept_connect_only_connected allCallbacks freshEngine .Accept 0 0 (Or.inl rfl)⟩

/-- C5 as stated fails: in the Context that the constructor leaves
(`_acceptor` null), here with a connected-callback set, an Accept completion
invokes the connected-callback and `Acceptor::Start` is not invoked at all. -/
theorem accept_without_acceptor_not_rearmed :
    MainLoop.body { Context.new with OnConnected := true } freshEngine 0
        (some { type := .Accept, connection := 0 }) =
      .ok { freshEngine with trace := [.OnConnected 0] } ∧
    Event.AcceptorStart ∉ [Event.OnConnected 0] := by
  decide

/-- C5, amended: an Accept completion appends to the trace exactly one
`Acceptor::Start` when `_acceptor` is set and none when it is null, followed
by the connected-callback when that is set, and nothing else; so with an
Acceptor registered the re-arming happens once and strictly before the
callback. -/
theorem accept_rearms_registered_acceptor (ctx : Context) (s : Engine) (conn : ConnPtr)
    (bytes_transferred : Nat) :
    ∃ s1, MainLoop.body ctx s bytes_transferred
        (some { type := .Accept, connection := conn }) = .ok s1 ∧
      s1.heap = s.heap ∧
      s1.trace = s.trace ++
        (if ctx._acceptor then [Event.AcceptorStart] else []) ++
        (if ctx.OnConnected then [Event.OnConnected conn] else []) :=
  ⟨_, body_accept ctx s conn bytes_transferred, rfl, rfl⟩

/-! ## The write buffer -/

theorem grow_capacity (c : Connection) (size : Nat) :
    size ≤ (AsyncWrite.grow c size).GetWriteBufferSize := by
  unfold AsyncWrite.grow
  split
  · rename_i h
    simp only [Connection.GetWriteBufferSize, Connection.ResizeWriteBuffer] at h ⊢
    simp
    omega
  · rename_i h
    exact Nat.le_of_not_lt h

theorem memcpy_s_take (dest : List Byte) {src : List Byte} {count : Nat} (hfit : count ≤ dest.length)
    (hsrc : count ≤ src.length) :
    (memcpy_s dest dest.length src count).length = dest.length ∧
    (memcpy_s dest dest.length src count).take count = src.take count := by
  simp only [memcpy_s, hfit, if_true]
  constructor
  · simp
    omega
  · rw [List.take_append_of_le_length (by simp [hsrc])]
    simp

/-- C6: `AsyncWrite(conn, data, size)` on a live Connection, with `data`
holding at least `size` bytes: the buffer that `memcpy_s` copies into has
capacity at least `size` (it has been grown when it was smaller), and
afterwards the capacity is still at least `size` and the first `size` bytes
of the write buffer are the first `size` bytes of `data`. -/
theorem AsyncWrite_buffer_holds_data (s : Engine) (conn : ConnPtr) (c : Connection)
    (data : List Byte) (size : Nat)
    (hlive : s.deref conn = some c) (hdata : size ≤ data.length) :
    size ≤ (AsyncWrite.grow c size).GetWriteBufferSize ∧
    ∃ s0 c0, AsyncWrite s conn data size = .ok s0 ∧ s0.deref conn = some c0 ∧
      size ≤ c0.GetWriteBufferSize ∧ c0.writeBuffer.take size = data.take size := by
  have hcap := grow_capacity c size
  have hcopy := memcpy_s_take (AsyncWrite.grow c size).writeBuffer hcap hdata
  refine ⟨hcap, _, AsyncWrite.update c data size, AsyncWrite_ok hlive data size,
    (Engine.deref_emit _ _ conn).trans (Engine.deref_store_self hlive _), ?_, ?_⟩
  · show size ≤ (memcpy_s _ _ data size).length
    simp only [Connection.GetWriteBufferSize] at hcap ⊢
    rw [hcopy.1]
    exact hcap
  · exact hcopy.2

/-- C6, at a concrete input: ten bytes written through an empty write buffer. -/
theorem AsyncWrite_buffer_holds_data_witness :
    freshEngine.deref 0 = some freshConnection ∧ 10 ≤ HELLOWORLD.length ∧
    10 ≤ (AsyncWrite.grow freshConnection 10).GetWriteBufferSize ∧
    ∃ s0 c0, AsyncWrite freshEngine 0 HELLOWORLD 10 = .ok s0 ∧ s0.deref 0 = some c0 ∧
      10 ≤ c0.GetWriteBufferSize ∧ c0.writeBuffer.take 10 = HELLOWORLD.take 10 :=
  ⟨rfl, by decide,
    AsyncWrite_buffer_holds_data freshEngine 0 freshConnection HELLOWORLD 10 rfl (by decide)⟩

/-! ## The invariant on the counters -/

theorem Engine.mem_heap_of_deref {s : Engine} {p : ConnPtr} {c : Connection}
    (h : s.deref p = some c) : some c ∈ s.heap := by
  unfold Engine.deref at h
  cases hg : s.heap.get? p with
  | none =>
    rw [hg] at h
    simp at h
  | some o =>
    rw [hg] at h
    simp at h
    subst h
    exact List.get?_mem hg

theorem countersOrdered_emit {s : Engine} (e : Event) (h : s.countersOrdered) :
    (s.emit e).countersOrdered := h

theorem countersOrdered_emitIf {s : Engine} (g : Bool) (e : Event) (h : s.countersOrdered) :
    (s.emitIf g e).countersOrdered := by
  cases g <;> exact h

theorem countersOrdered_free {s : Engine} (p : ConnPtr) (h : s.countersOrdered) :
    (s.free p).countersOrdered := by
  intro o ho c hc
  rcases List.mem_or_eq_of_mem_set ho with hmem | heq
  · exact h o hmem c hc
  · subst heq
    simp at hc

theorem countersOrdered_store {s : Engine} (p : ConnPtr) {c : Connection}
    (h : s.countersOrdered) (hc : c.sentBytes ≤ c.totalBytes) :
    (s.store p c).countersOrdered := by
  intro o ho c1 hc1
  rcases List.mem_or_eq_of_mem_set ho with hmem | heq
  · exact h o hmem c1 hc1
  · subst heq
    simp at hc1
    subst hc1
    exact hc

theorem countersOrdered_AsyncRead {s s1 : Engine} {conn : ConnPtr}
    (h : s.countersOrdered) (hstep : AsyncRead s conn = .ok s1) : s1.countersOrdered := by
  unfold AsyncRead at hstep
  cases hd : s.deref conn with
  | none => simp [hd] at hstep
  | some c =>
    simp only [hd] at hstep
    injection hstep with hstep
    subst hstep
    exact countersOrdered_emit _ (countersOrdered_store conn h
      (h _ (Engine.mem_heap_of_deref hd) c rfl))

theorem countersOrdered_AsyncWrite {s s1 : Engine} {conn : ConnPtr} {data : List Byte}
    {size : Nat} (h : s.countersOrdered) (hstep : AsyncWrite s conn data size = .ok s1) :
    s1.countersOrdered := by
  cases hd : s.deref conn with
  | none => simp [AsyncWrite, hd] at hstep
  | some c =>
    rw [AsyncWrite_ok hd] at hstep
    injection hstep with hstep
    subst hstep
    exact countersOrdered_emit _ (countersOrdered_store conn h
      (by rw [update_sentBytes]; exact Nat.zero_le _))

theorem countersOrdered_body {ctx : Context} {s s1 : Engine} {bytes_transferred : Nat}
    {overlapped : Option Overlapped} (h : s.countersOrdered)
    (hb : (Action.Dispatch bytes_transferred overlapped).inBounds s)
    (hstep : MainLoop.body ctx s bytes_transferred overlapped = .ok s1) :
    s1.countersOrdered := by
  cases overlapped with
  | none =>
    simp [MainLoop.body] at hstep
    subst hstep
    exact h
  | some ov =>
    obtain ⟨type, conn⟩ := ov
    cases type with
    | Accept =>
      rw [body_accept] at hstep
      injection hstep with hstep
      subst hstep
      exact h
    | Connect =>
      rw [body_connect] at hstep
      injection hstep with hstep
      subst hstep
      exact h
    | Read =>
      by_cases hz : bytes_transferred = 0
      · cases hd : s.deref conn with
        | none => simp [MainLoop.body, hz, Engine.deref_emitIf, hd] at hstep
        | some c =>
          simp [MainLoop.body, hz, Engine.deref_emitIf, hd] at hstep
          subst hstep
          exact countersOrdered_emit _ (countersOrdered_free _ (countersOrdered_emitIf _ _ h))
      · by_cases hr : ctx.OnRead = true
        · cases hd : s.deref conn with
          | none => simp [MainLoop.body, hz, hr, hd] at hstep
          | some c =>
            simp [MainLoop.body, hz, hr, hd] at hstep
            subst hstep
            exact countersOrdered_emit _ h
        · simp [MainLoop.body, hz, hr] at hstep
          subst hstep
          exact h
    | Write =>
      by_cases hz : bytes_transferred = 0
      · cases hd : s.deref conn with
        | none => simp [MainLoop.body, hz, Engine.deref_emitIf, hd] at hstep
        | some c =>
          simp [MainLoop.body, hz, Engine.deref_emitIf, hd] at hstep
          subst hstep
          exact countersOrdered_emit _ (countersOrdered_free _ (countersOrdered_emitIf _ _ h))
      · cases hd : s.deref conn with
        | none => simp [MainLoop.body, hz, hd] at hstep
        | some c =>
          have hle : c.sentBytes + bytes_transferred ≤ c.totalBytes := hb rfl c hd
          have hmod : (c.sentBytes + bytes_transferred) % SIZE_T_MOD ≤ c.totalBytes :=
            Nat.le_trans (Nat.mod_le _ _) hle
          simp only [MainLoop.body, hz, hd, Connection.SetSentBytes, Connection.GetSentBytes,
            Connection.GetTotalBytes] at hstep
          simp at hstep
          split at hstep
          · injection hstep with hstep
            subst hstep
            exact countersOrdered_emit _ (countersOrdered_store conn h hmod)
          · injection hstep with hstep
            subst hstep
            exact countersOrdered_emitIf _ _ (countersOrdered_store conn h hmod)

/-- C7 as stated fails: a second `AsyncWrite` of 2 bytes issued while the
first, of 10 bytes, is still in flight resets `total_bytes` to 2; the
completion of the first send (10 bytes) then leaves `sent_bytes = 10`
above `total_bytes = 2`. -/
theorem counters_not_always_ordered :
    freshEngine.countersOrdered ∧
    ∃ s1 c1, run allCallbacks freshEngine
        [.AsyncWrite 0 HELLOWORLD 10, .AsyncWrite 0 [72, 73] 2,
         .Dispatch 10 (some { type := .Write, connection := 0 })] = .ok s1 ∧
      s1.deref 0 = some c1 ∧ c1.sentBytes = 10 ∧ c1.totalBytes = 2 ∧
      ¬ s1.countersOrdered := by
  refine ⟨by decide, _, _, rfl, rfl, rfl, rfl, by decide⟩

/-- C7, amended: `sent_bytes ≤ total_bytes` holds for every live Connection
in every state reached from a state where it holds by `AsyncRead` and
`AsyncWrite` calls and dispatched completions, provided each Write
completion reports no more bytes than its Connection still has to send at
that moment. -/
theorem counters_ordered_when_in_bounds (ctx : Context) :
    ∀ (as : List Action) (s s1 : Engine), s.countersOrdered → runInBounds ctx s as = true →
      run ctx s as = .ok s1 → s1.countersOrdered
  | [], s, s1, h, _, hrun => by
    simp [run] at hrun
    subst hrun
    exact h
  | a :: rest, s, s1, h, hb, hrun => by
    simp only [run] at hrun
    simp only [runInBounds, Bool.and_eq_true, decide_eq_true_eq] at hb
    cases hstep : a.apply ctx s with
    | error f => simp [hstep] at hrun
    | ok s2 =>
      simp only [hstep] at hrun hb
      have h2 : s2.countersOrdered := by
        cases a with
        | AsyncRead conn => exact countersOrdered_AsyncRead h hstep
        | AsyncWrite conn data size => exact countersOrdered_AsyncWrite h hstep
        | Dispatch b ov => exact countersOrdered_body h hb.1 hstep
      exact counters_ordered_when_in_bounds ctx rest s2 s1 h2 hb.2 hrun

/-- C7 amended, at a concrete input: the HELLOWORLD scenario. -/
theorem counters_ordered_when_in_bounds_witness :
    freshEngine.countersOrdered ∧
    runInBounds allCallbacks freshEngine helloworldActions = true ∧
    run allCallbacks freshEngine helloworldActions = .ok helloworldDone ∧
    helloworldDone.countersOrdered :=
  ⟨by decide, by decide, by decide,
    counters_ordered_when_in_bounds allCallbacks helloworldActions freshEngine helloworldDone
      (by decide) (by decide) (by decide)⟩

/-- C8 on the code: with a receive and a send both in flight on the
Connection at address 0, a zero-byte Read completion deletes the
Connection; the Write completion that arrives afterwards is dispatched on
the deleted object, reading its counters through the stale pointer when it
carries bytes and deleting it a second time when it carries none. -/
theorem completion_after_teardown_faults :
    run allCallbacks freshEngine
      [.AsyncRead 0, .AsyncWrite 0 HELLOWORLD 10,
       .Dispatch 0 (some { type := .Read, connection := 0 }),
       .Dispatch 10 (some { type := .Write, connection := 0 })] =
      .error (.UseAfterFree 0) ∧
    run allCallbacks freshEngine
      [.AsyncRead 0, .AsyncWrite 0 HELLOWORLD 10,
       .Dispatch 0 (some { type := .Read, connection := 0 }),
       .Dispatch 0 (some { type := .Write, connection := 0 })] =
      .error (.DoubleFree 0) := by
  decide

/-- C9 as stated fails: after `AsyncWrite(conn, data, 0)` the completion of
the zero-length send carries zero bytes, so the zero-byte rule applies to
it: the disconnected-callback runs, the Connection is deleted, and the
write-complete callback is never invoked. -/
theorem empty_write_is_taken_for_disconnect :
    run allCallbacks freshEngine
      [.AsyncWrite 0 [] 0, .Dispatch 0 (some { type := .Write, connection := 0 })] =
      .ok { heap := [none],
            trace := [.WSASend 0 { len := 0, buf := 0 }, .OnDisconnected 0, .Delete 0] } ∧
    writeCalls [.WSASend 0 { len := 0, buf := 0 }, .OnDisconnected 0, .Delete 0] = 0 := by
  decide

/-- C10: a Read completion with `bytes_transferred > 0` on a live
Connection, with a read-callback set, invokes that callback once, with the
Connection, its read buffer and `bytes_transferred`; nothing else is
appended to the trace (no receive is submitted) and the heap is unchanged
(so are the counters and the write buffer). -/
theorem read_completion_invokes_OnRead (ctx : Context) (s : Engine) (conn : ConnPtr)
    (c : Connection) (bytes_transferred : Nat)
    (hcb : ctx.OnRead = true) (hlive : s.deref conn = some c) (hpos : 0 < bytes_transferred) :
    ∃ s1, MainLoop.body ctx s bytes_transferred (some { type := .Read, connection := conn }) =
        .ok s1 ∧
      s1.trace = s.trace ++ [.OnRead conn c.readBuffer bytes_transferred] ∧
      s1.heap = s.heap ∧ s1.deref conn = some c := by
  have hb0 : bytes_transferred ≠ 0 := by omega
  refine ⟨s.emit (.OnRead conn c.readBuffer bytes_transferred), ?_, rfl, rfl, hlive⟩
  simp [MainLoop.body, hb0, hcb, hlive]

/-- C10, at a concrete input: three bytes received on the Connection at
address 0. -/
theorem read_completion_invokes_OnRead_witness :
    allCallbacks.OnRead = true ∧ freshEngine.deref 0 = some freshConnection ∧ 0 < 3 ∧
    ∃ s1, MainLoop.body allCallbacks freshEngine 3 (some { type := .Read, connection := 0 }) =
        .ok s1 ∧
      s1.trace = freshEngine.trace ++ [.OnRead 0 freshConnection.readBuffer 3] ∧
      s1.heap = freshEngine.heap ∧ s1.deref 0 = some freshConnection :=
  ⟨rfl, rfl, by decide,
    read_completion_invokes_OnRead allCallbacks freshEngine 0 freshConnection 3 rfl rfl
      (by decide)⟩

/-! ## The loop body, branch by branch -/

theorem Engine.deref_store {s : Engine} {p : ConnPtr} {c0 : Connection}
    (h : s.deref p = some c0) (c : Connection) (q : ConnPtr) :
    (s.store p c).deref q = if q = p then some c else s.deref q := by
  by_cases hq : q = p
  · subst hq
    simp [Engine.deref_store_self h]
  · simp [hq, Engine.deref_store_other s (Ne.symm hq)]

theorem Engine.deref_free (s : Engine) (p q : ConnPtr) :
    (s.free p).deref q = if q = p then none else s.deref q := by
  by_cases hq : q = p
  · subst hq
    simp [Engine.deref_free_self]
  · simp [hq, Engine.deref_free_other s (Ne.symm hq)]

theorem body_null (ctx : Context) (s : Engine) (bytes_transferred : Nat) :
    MainLoop.body ctx s bytes_transferred none = .ok s := rfl

theorem body_zero (ctx : Context) {s : Engine} {type : OverlappedType} {conn : ConnPtr}
    {c : Connection} (hkind : type = .Read ∨ type = .Write) (hlive : s.deref conn = some c) :
    MainLoop.body ctx s 0 (some { type := type, connection := conn }) =
      .ok (((s.emitIf ctx.OnDisconnected (.OnDisconnected conn)).free conn).emit
        (.Delete conn)) := by
  rcases hkind with h | h <;>
    simp [MainLoop.body, h, Engine.deref_emitIf, hlive]

theorem body_read (ctx : Context) {s : Engine} {conn : ConnPtr} {c : Connection} {b : Nat}
    (hlive : s.deref conn = some c) (hb : b ≠ 0) :
    MainLoop.body ctx s b (some { type := .Read, connection := conn }) =
      .ok (s.emitIf ctx.OnRead (.OnRead conn c.readBuffer b)) := by
  cases h : ctx.OnRead <;> simp [MainLoop.body, hb, h, hlive, Engine.emitIf]

theorem body_write_resubmit (ctx : Context) {s : Engine} {conn : ConnPtr} {c : Connection}
    {b : Nat} (hlive : s.deref conn = some c) (hb : b ≠ 0)
    (hlt : (c.sentBytes + b) % SIZE_T_MOD < c.totalBytes) :
    MainLoop.body ctx s b (some { type := .Write, connection := conn }) =
      .ok ((s.store conn { c with
              sentBytes := (c.sentBytes + b) % SIZE_T_MOD
              writeOverlapped :=
                { len := (c.totalBytes - (c.sentBytes + b) % SIZE_T_MOD) % DWORD_MOD,
                  buf := (c.sentBytes + b) % SIZE_T_MOD } }).emit
            (.WSASend conn
              { len := (c.totalBytes - (c.sentBytes + b) % SIZE_T_MOD) % DWORD_MOD,
                buf := (c.sentBytes + b) % SIZE_T_MOD })) := by
  simp [MainLoop.body, hlive, hb, Connection.SetSentBytes, Connection.GetSentBytes,
    Connection.GetTotalBytes, hlt]

theorem body_write_done (ctx : Context) {s : Engine} {conn : ConnPtr} {c : Connection}
    {b : Nat} (hlive : s.deref conn = some c) (hb : b ≠ 0)
    (hge : ¬ (c.sentBytes + b) % SIZE_T_MOD < c.totalBytes) :
    MainLoop.body ctx s b (some { type := .Write, connection := conn }) =
      .ok ((s.store conn { c with sentBytes := (c.sentBytes + b) % SIZE_T_MOD }).emitIf
            ctx.OnWrite (.OnWrite conn b)) := by
  simp [MainLoop.body, hlive, hb, Connection.SetSentBytes, Connection.GetSentBytes,
    Connection.GetTotalBytes, hge]

theorem AsyncRead_ok {s : Engine} {conn : ConnPtr} {c : Connection}
    (hlive : s.deref conn = some c) :
    AsyncRead s conn =
      .ok ((s.store conn { c with
              readOverlapped := { len := c.readBuffer.length % DWORD_MOD, buf := 0 } }).emit
            (.WSARecv conn { len := c.readBuffer.length % DWORD_MOD, buf := 0 })) := by
  simp [AsyncRead, hlive]

/-! ## The length of the descriptor -/

/-- C11 on the code: `AsyncWrite(conn, data, 4294967296)` records
`total_bytes = 2 ^ 32` but submits a send whose descriptor has length 0,
because `wsa_buf.len` keeps only the low 32 bits of `size`; the completion
of that send carries zero bytes and is dispatched as a disconnect. -/
theorem AsyncWrite_length_wraps (data : List Byte) :
    ∃ s0 c0 s1, AsyncWrite freshEngine 0 data 4294967296 = .ok s0 ∧
      s0.trace = [.WSASend 0 { len := 0, buf := 0 }] ∧
      s0.deref 0 = some c0 ∧ c0.totalBytes = 4294967296 ∧ c0.sentBytes = 0 ∧
      MainLoop.body allCallbacks s0 0 (some { type := .Write, connection := 0 }) = .ok s1 ∧
      s1.trace = [.WSASend 0 { len := 0, buf := 0 }, .OnDisconnected 0, .Delete 0] ∧
      s1.deref 0 = none := by
  have hlive : freshEngine.deref 0 = some freshConnection := rfl
  have h0 := AsyncWrite_ok hlive data 4294967296
  have hl0 : ((freshEngine.store 0 (AsyncWrite.update freshConnection data 4294967296)).emit
      (.WSASend 0 { len := 4294967296 % DWORD_MOD, buf := 0 })).deref 0 =
      some (AsyncWrite.update freshConnection data 4294967296) :=
    (Engine.deref_emit _ _ 0).trans (Engine.deref_store_self hlive _)
  refine ⟨_, _, _, h0, ?_, hl0, ?_, update_sentBytes _ _ _,
    body_zero allCallbacks (Or.inr rfl) hl0, ?_, ?_⟩
  · simp [Engine.emit, Engine.store, freshEngine, DWORD_MOD]
  · rw [update_totalBytes]
    simp [SIZE_T_MOD]
  · simp [Engine.emit, Engine.store, Engine.free, Engine.emitIf, allCallbacks, freshEngine,
      DWORD_MOD]
  · rw [Engine.deref_emit, Engine.deref_free_self]

/-- C12 on the code: after `AsyncWrite(conn, data, 4294967306)` (the send
submitted has length 10), a Write completion of 5 bytes leaves
`total_bytes - sent_bytes = 4294967301` to send, but the send resubmitted
at offset 5 has length 5: `wsa_buf.len` keeps only the low 32 bits of the
remaining count. -/
theorem continuation_length_wraps (data : List Byte) :
    ∃ s0 s1 c1, AsyncWrite freshEngine 0 data 4294967306 = .ok s0 ∧
      s0.trace = [.WSASend 0 { len := 10, buf := 0 }] ∧
      MainLoop.body allCallbacks s0 5 (some { type := .Write, connection := 0 }) = .ok s1 ∧
      s1.deref 0 = some c1 ∧ c1.sentBytes = 5 ∧ c1.totalBytes = 4294967306 ∧
      c1.writeOverlapped = { len := 5, buf := 5 } ∧
      s1.trace = [.WSASend 0 { len := 10, buf := 0 }, .WSASend 0 { len := 5, buf := 5 }] := by
  have hlive : freshEngine.deref 0 = some freshConnection := rfl
  have h0 := AsyncWrite_ok hlive data 4294967306
  have hl0 : ((freshEngine.store 0 (AsyncWrite.update freshConnection data 4294967306)).emit
      (.WSASend 0 { len := 4294967306 % DWORD_MOD, buf := 0 })).deref 0 =
      some (AsyncWrite.update freshConnection data 4294967306) :=
    (Engine.deref_emit _ _ 0).trans (Engine.deref_store_self hlive _)
  have hs : (AsyncWrite.update freshConnection data 4294967306).sentBytes = 0 :=
    update_sentBytes _ _ _
  have ht : (AsyncWrite.update freshConnection data 4294967306).totalBytes = 4294967306 := by
    rw [update_totalBytes]
    simp [SIZE_T_MOD]
  have hstep := body_write_continue allCallbacks hl0 (by decide : 0 < 5)
    (by rw [hs, ht]; decide) (by rw [ht]; decide)
  refine ⟨_, _, _, h0, ?_, hstep, (Engine.deref_emit _ _ 0).trans
    (Engine.deref_store_self hl0 _), ?_, ht, ?_, ?_⟩
  · simp [Engine.emit, Engine.store, freshEngine, DWORD_MOD]
  · simp [hs]
  · simp [hs, ht, DWORD_MOD]
  · simp [Engine.emit, Engine.store, freshEngine, hs, ht, DWORD_MOD]

/-- C13 as stated fails: with a second `AsyncWrite` of 2 bytes issued while
the first, of 10 bytes, is in flight, the completion of the first send
invokes the write-complete callback in a state with `sent_bytes = 10` and
`total_bytes = 2`. -/
theorem write_callback_with_sent_above_total :
    ∃ s0 s1 c1, run allCallbacks freshEngine
        [.AsyncWrite 0 HELLOWORLD 10, .AsyncWrite 0 [72, 73] 2] = .ok s0 ∧
      MainLoop.body allCallbacks s0 10 (some { type := .Write, connection := 0 }) = .ok s1 ∧
      s1.trace = s0.trace ++ [.OnWrite 0 10] ∧
      s1.deref 0 = some c1 ∧ c1.sentBytes = 10 ∧ c1.totalBytes = 2 ∧
      c1.sentBytes ≠ c1.totalBytes := by
  refine ⟨_, _, _, rfl, rfl, rfl, rfl, rfl, rfl, by decide⟩

/-- C13, amended: when a Write completion with nonzero `bytes_transferred`
makes `MainLoop` invoke the write-complete callback, `sent_bytes` is not
below `total_bytes` at that moment; and it equals `total_bytes` when the
completion reported no more than was still to send. -/
theorem write_callback_only_when_sent_reaches_total (ctx : Context) (s s1 : Engine)
    (conn : ConnPtr) (c : Connection) (b : Nat)
    (hlive : s.deref conn = some c) (hb : b ≠ 0)
    (hstep : MainLoop.body ctx s b (some { type := .Write, connection := conn }) = .ok s1)
    (hcall : writeCalls s1.trace = writeCalls s.trace + 1) :
    ∃ c1, s1.deref conn = some c1 ∧ c1.totalBytes ≤ c1.sentBytes ∧
      (c.sentBytes + b ≤ c.totalBytes → c1.sentBytes = c1.totalBytes) := by
  by_cases hlt : (c.sentBytes + b) % SIZE_T_MOD < c.totalBytes
  · rw [body_write_resubmit ctx hlive hb hlt] at hstep
    injection hstep with hstep
    subst hstep
    simp [Engine.emit, Engine.store, writeCalls, isOnWrite] at hcall
  · rw [body_write_done ctx hlive hb hlt] at hstep
    injection hstep with hstep
    subst hstep
    refine ⟨_, (Engine.deref_emitIf _ _ _ conn).trans (Engine.deref_store_self hlive _),
      Nat.le_of_not_lt hlt, ?_⟩
    intro hle
    have hmod : (c.sentBytes + b) % SIZE_T_MOD ≤ c.sentBytes + b := Nat.mod_le _ _
    show (c.sentBytes + b) % SIZE_T_MOD = c.totalBytes
    omega

/-- C13 amended, at a concrete input: the completion of the last 6 bytes of
the HELLOWORLD scenario. -/
theorem write_callback_only_when_sent_reaches_total_witness :
    helloworldHalf.deref 0 =
      some { readBuffer := [0, 0, 0, 0], writeBuffer := HELLOWORLD,
             sentBytes := 4, totalBytes := 10,
             readOverlapped := { len := 0, buf := 0 },
             writeOverlapped := { len := 6, buf := 4 } } ∧
    6 ≠ 0 ∧
    MainLoop.body allCallbacks helloworldHalf 6 (some { type := .Write, connection := 0 }) =
      .ok helloworldDone ∧
    writeCalls helloworldDone.trace = writeCalls helloworldHalf.trace + 1 ∧
    ∃ c1, helloworldDone.deref 0 = some c1 ∧ c1.totalBytes ≤ c1.sentBytes ∧
      (4 + 6 ≤ 10 → c1.sentBytes = c1.totalBytes) :=
  ⟨rfl, by decide, by decide, by decide,
    write_callback_only_when_sent_reaches_total allCallbacks helloworldHalf helloworldDone 0
      _ 6 rfl (by decide) (by decide) (by decide)⟩

/-- C16: a successfully dequeued completion without operation context is
skipped, whatever its byte count: the loop body returns the state it was
given (heap and trace, so no callback, no send, no re-arm), and `MainLoop`
goes on with the next dequeue result. -/
theorem null_completion_ignored (ctx : Context) (s : Engine) (bytes_transferred : Nat)
    (rest : List QueuedCompletionStatus) :
    MainLoop.body ctx s bytes_transferred none = .ok s ∧
    MainLoop ctx s
        ({ result := true, bytes_transferred := bytes_transferred, overlapped := none } ::
          rest) =
      MainLoop ctx s rest := by
  refine ⟨rfl, ?_⟩
  simp [MainLoop, MainLoop.body]

theorem MainLoop_all_dequeued (ctx : Context) :
    ∀ (qs : List QueuedCompletionStatus) (s : Engine), (∀ q ∈ qs, q.result = true) →
      MainLoop ctx s qs = (dispatchAll ctx s qs).map (LoopOutcome.of false)
  | [], s, _ => rfl
  | q :: rest, s, h => by
    have hq : q.result = true := h q (by simp)
    simp only [MainLoop, dispatchAll, hq, if_true]
    cases hb : MainLoop.body ctx s q.bytes_transferred q.overlapped with
    | error f => rfl
    | ok s1 => exact MainLoop_all_dequeued ctx rest s1 (fun x hx => h x (by simp [hx]))

theorem MainLoop_until_failure (ctx : Context) (failed : QueuedCompletionStatus)
    (rest : List QueuedCompletionStatus) (hfail : failed.result = false) :
    ∀ (qs : List QueuedCompletionStatus) (s : Engine), (∀ q ∈ qs, q.result = true) →
      MainLoop ctx s (qs ++ failed :: rest) =
        (dispatchAll ctx s qs).map (LoopOutcome.of true)
  | [], s, _ => by
    simp [MainLoop, dispatchAll, hfail, LoopOutcome.of, Except.map]
  | q :: qs, s, h => by
    have hq : q.result = true := h q (by simp)
    simp only [MainLoop, dispatchAll, hq, if_true, List.cons_append]
    cases hb : MainLoop.body ctx s q.bytes_transferred q.overlapped with
    | error f => rfl
    | ok s1 =>
      exact MainLoop_until_failure ctx failed rest hfail qs s1 (fun x hx => h x (by simp [hx]))

/-- C17: over a sequence of dequeue results whose first failure is
`failed`, `MainLoop` applies the loop body, in order, to exactly the
results before `failed` and then returns, whatever `failed` carries and
whatever follows it; over a sequence without failure it applies the body to
all of them and has not returned. -/
theorem MainLoop_stops_at_first_failure (ctx : Context) (s : Engine)
    (qs rest : List QueuedCompletionStatus) (failed : QueuedCompletionStatus)
    (hqs : ∀ q ∈ qs, q.result = true) (hfail : failed.result = false) :
    MainLoop ctx s (qs ++ failed :: rest) =
      (dispatchAll ctx s qs).map (LoopOutcome.of true) ∧
    MainLoop ctx s qs = (dispatchAll ctx s qs).map (LoopOutcome.of false) :=
  ⟨MainLoop_until_failure ctx failed rest hfail qs s hqs, MainLoop_all_dequeued ctx qs s hqs⟩

/-- C17, at a concrete input: a Read completion of three bytes, then a
failed dequeue that carries a Write context, then one more completion. -/
theorem MainLoop_stops_at_first_failure_witness :
    (∀ q ∈ [completion .Read 0 3], q.result = true) ∧
    ({ result := false, bytes_transferred := 5,
       overlapped := some { type := .Write, connection := 0 } } :
        QueuedCompletionStatus).result = false ∧
    MainLoop allCallbacks freshEngine
        ([completion .Read 0 3] ++
          { result := false, bytes_transferred := 5,
            overlapped := some { type := .Write, connection := 0 } } ::
          [completion .Read 0 2]) =
      (dispatchAll allCallbacks freshEngine [completion .Read 0 3]).map
        (LoopOutcome.of true) ∧
    MainLoop allCallbacks freshEngine [completion .Read 0 3] =
      (dispatchAll allCallbacks freshEngine [completion .Read 0 3]).map
        (LoopOutcome.of false) :=
  ⟨by decide, rfl,
    MainLoop_stops_at_first_failure allCallbacks freshEngine [completion .Read 0 3]
      [completion .Read 0 2]
      { result := false, bytes_transferred := 5,
        overlapped := some { type := .Write, connection := 0 } }
      (by decide) rfl⟩

/-! ## What one action does to a Connection -/

theorem Engine.exists_deref_of_mem {s : Engine} {c : Connection} (h : some c ∈ s.heap) :
    ∃ p, s.deref p = some c := by
  obtain ⟨p, hp⟩ := List.get?_of_mem h
  refine ⟨p, ?_⟩
  unfold Engine.deref
  rw [hp]
  rfl

theorem update_capacity (c : Connection) {data : List Byte} {size : Nat}
    (hdata : size ≤ data.length) :
    (AsyncWrite.update c data size).GetWriteBufferSize =
      (AsyncWrite.grow c size).GetWriteBufferSize :=
  (memcpy_s_take (AsyncWrite.grow c size).writeBuffer (grow_capacity c size) hdata).1

theorem grow_capacity_eq (c : Connection) (size : Nat) :
    (AsyncWrite.grow c size).GetWriteBufferSize = max c.GetWriteBufferSize size := by
  unfold AsyncWrite.grow
  split
  · rename_i h
    simp only [Connection.GetWriteBufferSize, Connection.ResizeWriteBuffer] at h ⊢
    simp
    omega
  · rename_i h
    simp only [Connection.GetWriteBufferSize] at h ⊢
    omega

/-- What an action that succeeds does to the Connection at address `p`: it
leaves it as it is, or deletes it, or changes neither its write buffer nor
`total_bytes`, or is an `AsyncWrite` on it. -/
theorem apply_frame {ctx : Context} {s s1 : Engine} {a : Action}
    (hstep : a.apply ctx s = .ok s1) (p : ConnPtr) :
    s1.deref p = s.deref p ∨ s1.deref p = none ∨
    (∃ c c1, s.deref p = some c ∧ s1.deref p = some c1 ∧
      c1.writeBuffer = c.writeBuffer ∧ c1.totalBytes = c.totalBytes) ∨
    (∃ c data size, a = .AsyncWrite p data size ∧ s.deref p = some c ∧
      s1.deref p = some (AsyncWrite.update c data size)) := by
  cases a with
  | AsyncRead conn =>
    cases hd : s.deref conn with
    | none => simp [Action.apply, AsyncRead, hd] at hstep
    | some c =>
      simp only [Action.apply, AsyncRead_ok hd] at hstep
      injection hstep with hstep
      subst hstep
      by_cases hp : p = conn
      · subst hp
        exact Or.inr (Or.inr (Or.inl ⟨c, _, hd,
          (Engine.deref_emit _ _ p).trans (Engine.deref_store_self hd _), rfl, rfl⟩))
      · exact Or.inl ((Engine.deref_emit _ _ p).trans
          (Engine.deref_store_other s (Ne.symm hp) _))
  | AsyncWrite conn data size =>
    cases hd : s.deref conn with
    | none => simp [Action.apply, AsyncWrite, hd] at hstep
    | some c =>
      simp only [Action.apply, AsyncWrite_ok hd] at hstep
      injection hstep with hstep
      subst hstep
      by_cases hp : p = conn
      · subst hp
        exact Or.inr (Or.inr (Or.inr ⟨c, data, size, rfl, hd,
          (Engine.deref_emit _ _ p).trans (Engine.deref_store_self hd _)⟩))
      · exact Or.inl ((Engine.deref_emit _ _ p).trans
          (Engine.deref_store_other s (Ne.symm hp) _))
  | Dispatch b ov =>
    simp only [Action.apply] at hstep
    cases ov with
    | none =>
      rw [body_null] at hstep
      injection hstep with hstep
      subst hstep
      exact Or.inl rfl
    | some ov =>
      obtain ⟨type, conn⟩ := ov
      have hzero : ∀ c, s.deref conn = some c → (type = .Read ∨ type = .Write) → b = 0 →
          s1.deref p = s.deref p ∨ s1.deref p = none := by
        intro c hd hk hz
        subst hz
        rw [body_zero ctx hk hd] at hstep
        injection hstep with hstep
        subst hstep
        by_cases hp : p = conn
        · subst hp
          exact Or.inr ((Engine.deref_emit _ _ p).trans (Engine.deref_free_self _ p))
        · exact Or.inl (((Engine.deref_emit _ _ p).trans
            (Engine.deref_free_other _ (Ne.symm hp))).trans (Engine.deref_emitIf _ _ _ p))
      cases type with
      | Accept =>
        rw [body_accept] at hstep
        injection hstep with hstep
        subst hstep
        exact Or.inl rfl
      | Connect =>
        rw [body_connect] at hstep
        injection hstep with hstep
        subst hstep
        exact Or.inl rfl
      | Read =>
        cases hd : s.deref conn with
        | none =>
          by_cases hz : b = 0
          · simp [MainLoop.body, hz, Engine.deref_emitIf, hd] at hstep
          · by_cases hr : ctx.OnRead = true
            · simp [MainLoop.body, hz, hr, hd] at hstep
            · simp [MainLoop.body, hz, hr] at hstep
              subst hstep
              exact Or.inl rfl
        | some c =>
          by_cases hz : b = 0
          · rcases hzero c hd (Or.inl rfl) hz with h | h
            · exact Or.inl h
            · exact Or.inr (Or.inl h)
          · rw [body_read ctx hd hz] at hstep
            injection hstep with hstep
            subst hstep
            exact Or.inl (Engine.deref_emitIf _ _ _ p)
      | Write =>
        cases hd : s.deref conn with
        | none =>
          by_cases hz : b = 0
          · simp [MainLoop.body, hz, Engine.deref_emitIf, hd] at hstep
          · simp [MainLoop.body, hz, hd] at hstep
        | some c =>
          by_cases hz : b = 0
          · rcases hzero c hd (Or.inr rfl) hz with h | h
            · exact Or.inl h
            · exact Or.inr (Or.inl h)
          · by_cases hlt : (c.sentBytes + b) % SIZE_T_MOD < c.totalBytes
            · rw [body_write_resubmit ctx hd hz hlt] at hstep
              injection hstep with hstep
              subst hstep
              by_cases hp : p = conn
              · subst hp
                exact Or.inr (Or.inr (Or.inl ⟨c, _, hd,
                  (Engine.deref_emit _ _ p).trans (Engine.deref_store_self hd _), rfl, rfl⟩))
              · exact Or.inl ((Engine.deref_emit _ _ p).trans
                  (Engine.deref_store_other s (Ne.symm hp) _))
            · rw [body_write_done ctx hd hz hlt] at hstep
              injection hstep with hstep
              subst hstep
              by_cases hp : p = conn
              · subst hp
                exact Or.inr (Or.inr (Or.inl ⟨c, _, hd,
                  (Engine.deref_emitIf _ _ _ p).trans (Engine.deref_store_self hd _),
                  rfl, rfl⟩))
              · exact Or.inl ((Engine.deref_emitIf _ _ _ p).trans
                  (Engine.deref_store_other s (Ne.symm hp) _))

theorem mod_DWORD_le_mod_SIZE_T (n : Nat) : n % DWORD_MOD ≤ n % SIZE_T_MOD := by
  have h : n % DWORD_MOD = n % SIZE_T_MOD % DWORD_MOD := by
    unfold DWORD_MOD SIZE_T_MOD
    exact (Nat.mod_mod_of_dvd n (by norm_num)).symm
  rw [h]
  exact Nat.mod_le _ _

/-- Every send that an action submits lies within the first `total_bytes`
bytes of the write buffer of its Connection. -/
theorem apply_sends {ctx : Context} {s s1 : Engine} {a : Action}
    (hstep : a.apply ctx s = .ok s1) :
    ∃ evs, s1.trace = s.trace ++ evs ∧
      ∀ conn w, Event.WSASend conn w ∈ evs →
        ∃ c1, s1.deref conn = some c1 ∧ w.buf + w.len ≤ c1.totalBytes := by
  cases a with
  | AsyncRead conn =>
    cases hd : s.deref conn with
    | none => simp [Action.apply, AsyncRead, hd] at hstep
    | some c =>
      simp only [Action.apply, AsyncRead_ok hd] at hstep
      injection hstep with hstep
      subst hstep
      exact ⟨_, rfl, by simp⟩
  | AsyncWrite conn data size =>
    cases hd : s.deref conn with
    | none => simp [Action.apply, AsyncWrite, hd] at hstep
    | some c =>
      simp only [Action.apply, AsyncWrite_ok hd] at hstep
      injection hstep with hstep
      subst hstep
      refine ⟨_, rfl, ?_⟩
      intro conn1 w hw
      simp at hw
      obtain ⟨h1, h2⟩ := hw
      subst h1 h2
      refine ⟨_, (Engine.deref_emit _ _ _).trans (Engine.deref_store_self hd _), ?_⟩
      rw [update_totalBytes]
      simpa using mod_DWORD_le_mod_SIZE_T size
  | Dispatch b ov =>
    simp only [Action.apply] at hstep
    cases ov with
    | none =>
      rw [body_null] at hstep
      injection hstep with hstep
      subst hstep
      exact ⟨[], by simp, by simp⟩
    | some ov =>
      obtain ⟨type, conn⟩ := ov
      have hzero : ∀ c, s.deref conn = some c → (type = .Read ∨ type = .Write) → b = 0 →
          ∃ evs, s1.trace = s.trace ++ evs ∧
            ∀ conn w, Event.WSASend conn w ∈ evs →
              ∃ c1, s1.deref conn = some c1 ∧ w.buf + w.len ≤ c1.totalBytes := by
        intro c hd hk hz
        subst hz
        rw [body_zero ctx hk hd] at hstep
        injection hstep with hstep
        subst hstep
        refine ⟨(if ctx.OnDisconnected then [Event.OnDisconnected conn] else []) ++
          [.Delete conn], ?_, ?_⟩
        · cases ctx.OnDisconnected <;> simp [Engine.emitIf, Engine.emit, Engine.free]
        · intro conn1 w hw
          cases hcb : ctx.OnDisconnected <;> simp [hcb] at hw
      cases type with
      | Accept =>
        rw [body_accept] at hstep
        injection hstep with hstep
        subst hstep
        refine ⟨_, List.append_assoc _ _ _, ?_⟩
        intro conn1 w hw
        cases h1 : ctx._acceptor <;> cases h2 : ctx.OnConnected <;> simp [h1, h2] at hw
      | Connect =>
        rw [body_connect] at hstep
        injection hstep with hstep
        subst hstep
        refine ⟨_, rfl, ?_⟩
        intro conn1 w hw
        cases h2 : ctx.OnConnected <;> simp [h2] at hw
      | Read =>
        cases hd : s.deref conn with
        | none =>
          by_cases hz : b = 0
          · simp [MainLoop.body, hz, Engine.deref_emitIf, hd] at hstep
          · by_cases hr : ctx.OnRead = true
            · simp [MainLoop.body, hz, hr, hd] at hstep
            · simp [MainLoop.body, hz, hr] at hstep
              subst hstep
              exact ⟨[], by simp, by simp⟩
        | some c =>
          by_cases hz : b = 0
          · exact hzero c hd (Or.inl rfl) hz
          · rw [body_read ctx hd hz] at hstep
            injection hstep with hstep
            subst hstep
            refine ⟨if ctx.OnRead then [Event.OnRead conn c.readBuffer b] else [], ?_, ?_⟩
            · cases ctx.OnRead <;> simp [Engine.emitIf, Engine.emit]
            · intro conn1 w hw
              cases hcb : ctx.OnRead <;> simp [hcb] at hw
      | Write =>
        cases hd : s.deref conn with
        | none =>
          by_cases hz : b = 0
          · simp [MainLoop.body, hz, Engine.deref_emitIf, hd] at hstep
          · simp [MainLoop.body, hz, hd] at hstep
        | some c =>
          by_cases hz : b = 0
          · exact hzero c hd (Or.inr rfl) hz
          · by_cases hlt : (c.sentBytes + b) % SIZE_T_MOD < c.totalBytes
            · rw [body_write_resubmit ctx hd hz hlt] at hstep
              injection hstep with hstep
              subst hstep
              refine ⟨_, rfl, ?_⟩
              intro conn1 w hw
              simp at hw
              obtain ⟨h1, h2⟩ := hw
              subst h1 h2
              refine ⟨_, (Engine.deref_emit _ _ _).trans (Engine.deref_store_self hd _), ?_⟩
              have hle : (c.totalBytes - (c.sentBytes + b) % SIZE_T_MOD) % DWORD_MOD ≤
                  c.totalBytes - (c.sentBytes + b) % SIZE_T_MOD := Nat.mod_le _ _
              show (c.sentBytes + b) % SIZE_T_MOD +
                (c.totalBytes - (c.sentBytes + b) % SIZE_T_MOD) % DWORD_MOD ≤ c.totalBytes
              omega
            · rw [body_write_done ctx hd hz hlt] at hstep
              injection hstep with hstep
              subst hstep
              refine ⟨if ctx.OnWrite then [Event.OnWrite conn b] else [], ?_, ?_⟩
              · cases ctx.OnWrite <;> simp [Engine.emitIf, Engine.emit, Engine.store]
              · intro conn1 w hw
                cases hcb : ctx.OnWrite <;> simp [hcb] at hw

theorem bufferCovers_apply {ctx : Context} {s s1 : Engine} {a : Action}
    (hinv : s.bufferCovers) (hdata : a.dataOk) (hstep : a.apply ctx s = .ok s1) :
    s1.bufferCovers := by
  intro o ho c1 hc1
  simp at hc1
  subst hc1
  obtain ⟨p, hp⟩ := Engine.exists_deref_of_mem ho
  rcases apply_frame hstep p with h | h | ⟨c, c2, hc, hc2, hwb, htot⟩ | ⟨c, data, size, ha, hc, hc2⟩
  · rw [hp] at h
    exact hinv _ (Engine.mem_heap_of_deref h.symm) c1 rfl
  · rw [hp] at h
    cases h
  · rw [hp] at hc2
    injection hc2 with hc2
    subst hc2
    have := hinv _ (Engine.mem_heap_of_deref hc) c rfl
    simp only [Connection.GetWriteBufferSize] at this ⊢
    rw [hwb, htot]
    exact this
  · rw [hp] at hc2
    injection hc2 with hc2
    subst hc2 ha
    rw [update_totalBytes, update_capacity c hdata]
    exact Nat.le_trans (Nat.mod_le _ _) (grow_capacity c size)

/-- C14: from a state in which every live Connection has write-buffer
capacity at least `total_bytes`, any call of `AsyncRead` or `AsyncWrite`
(with `data` holding `size` bytes) and any dispatched completion leads to a
state in which this holds again; after `AsyncWrite(conn, data, size)` the
capacity is at least `size`; and every send submitted by the action covers
bytes `buf .. buf + len` inside the write buffer of its Connection. -/
theorem sends_stay_inside_write_buffer (ctx : Context) (s s1 : Engine) (a : Action)
    (hinv : s.bufferCovers) (hdata : a.dataOk) (hstep : a.apply ctx s = .ok s1) :
    s1.bufferCovers ∧
    (∀ conn data size, a = .AsyncWrite conn data size →
      ∃ c1, s1.deref conn = some c1 ∧ c1.totalBytes ≤ size ∧
        size ≤ c1.GetWriteBufferSize) ∧
    ∃ evs, s1.trace = s.trace ++ evs ∧
      ∀ conn w, Event.WSASend conn w ∈ evs →
        ∃ c1, s1.deref conn = some c1 ∧ w.buf + w.len ≤ c1.GetWriteBufferSize := by
  have hinv1 := bufferCovers_apply hinv hdata hstep
  refine ⟨hinv1, ?_, ?_⟩
  · intro conn data size ha
    subst ha
    cases hd : s.deref conn with
    | none => simp [Action.apply, AsyncWrite, hd] at hstep
    | some c =>
      simp only [Action.apply, AsyncWrite_ok hd] at hstep
      injection hstep with hstep
      subst hstep
      refine ⟨_, (Engine.deref_emit _ _ _).trans (Engine.deref_store_self hd _), ?_, ?_⟩
      · rw [update_totalBytes]
        exact Nat.mod_le _ _
      · rw [update_capacity c hdata]
        exact grow_capacity c size
  · obtain ⟨evs, htr, hsend⟩ := apply_sends hstep
    refine ⟨evs, htr, ?_⟩
    intro conn w hw
    obtain ⟨c1, hc1, hle⟩ := hsend conn w hw
    exact ⟨c1, hc1, Nat.le_trans hle (hinv1 _ (Engine.mem_heap_of_deref hc1) c1 rfl)⟩

/-- C14, at a concrete input: the completion of the first 4 bytes of the
HELLOWORLD scenario, which resubmits bytes 4 .. 10. -/
theorem sends_stay_inside_write_buffer_witness :
    helloworldStart.bufferCovers ∧
    (Action.Dispatch 4 (some { type := .Write, connection := 0 })).dataOk ∧
    (Action.Dispatch 4 (some { type := .Write, connection := 0 })).apply allCallbacks
      helloworldStart = .ok helloworldHalf ∧
    (helloworldHalf.bufferCovers ∧
    (∀ conn data size,
      Action.Dispatch 4 (some { type := .Write, connection := 0 }) =
        .AsyncWrite conn data size →
      ∃ c1, helloworldHalf.deref conn = some c1 ∧ c1.totalBytes ≤ size ∧
        size ≤ c1.GetWriteBufferSize) ∧
    ∃ evs, helloworldHalf.trace = helloworldStart.trace ++ evs ∧
      ∀ conn w, Event.WSASend conn w ∈ evs →
        ∃ c1, helloworldHalf.deref conn = some c1 ∧
          w.buf + w.len ≤ c1.GetWriteBufferSize) :=
  ⟨by decide, by decide, by decide,
    sends_stay_inside_write_buffer allCallbacks helloworldStart helloworldHalf
      (.Dispatch 4 (some { type := .Write, connection := 0 }))
      (by decide) (by decide) (by decide)⟩

/-- C15: on a live Connection, `AsyncWrite(conn, data, size)` (with `data`
holding `size` bytes) succeeds and leaves the write-buffer capacity equal to
the larger of the old capacity and `size`; and no call of `AsyncRead` or
`AsyncWrite` and no dispatched completion after which the Connection still
exists leaves it with a smaller capacity than before. -/
theorem write_buffer_capacity_never_shrinks (ctx : Context) (s : Engine) (p : ConnPtr)
    (c : Connection) (hc : s.deref p = some c) :
    (∀ data size, size ≤ data.length →
      ∃ s1 c1, AsyncWrite s p data size = .ok s1 ∧ s1.deref p = some c1 ∧
        c1.GetWriteBufferSize = max c.GetWriteBufferSize size) ∧
    (∀ (a : Action) s1 c1, a.dataOk → a.apply ctx s = .ok s1 → s1.deref p = some c1 →
      c.GetWriteBufferSize ≤ c1.GetWriteBufferSize) := by
  constructor
  · intro data size hdata
    refine ⟨_, _, AsyncWrite_ok hc data size,
      (Engine.deref_emit _ _ _).trans (Engine.deref_store_self hc _), ?_⟩
    rw [update_capacity c hdata, grow_capacity_eq]
  · intro a s1 c1 hdata hstep hc1
    rcases apply_frame hstep p with h | h | ⟨c0, c2, hc0, hc2, hwb, _⟩ |
      ⟨c0, data, size, ha, hc0, hc2⟩
    · rw [hc, hc1] at h
      injection h with h
      subst h
      exact Nat.le_refl _
    · rw [hc1] at h
      cases h
    · rw [hc] at hc0
      rw [hc1] at hc2
      injection hc0 with hc0
      injection hc2 with hc2
      subst hc0 hc2
      simp only [Connection.GetWriteBufferSize]
      rw [hwb]
    · rw [hc] at hc0
      rw [hc1] at hc2
      injection hc0 with hc0
      injection hc2 with hc2
      subst hc0 hc2 ha
      rw [update_capacity c hdata, grow_capacity_eq]
      exact Nat.le_max_left _ _

/-- C15, at a concrete input: the Connection of the HELLOWORLD scenario
after its first completion, whose write buffer holds 10 bytes. -/
theorem write_buffer_capacity_never_shrinks_witness :
    helloworldHalf.deref 0 =
      some { readBuffer := [0, 0, 0, 0], writeBuffer := HELLOWORLD,
             sentBytes := 4, totalBytes := 10,
             readOverlapped := { len := 0, buf := 0 },
             writeOverlapped := { len := 6, buf := 4 } } ∧
    ((∀ data size, size ≤ data.length →
      ∃ s1 c1, AsyncWrite helloworldHalf 0 data size = .ok s1 ∧ s1.deref 0 = some c1 ∧
        c1.GetWriteBufferSize = max 10 size) ∧
    (∀ (a : Action) s1 c1, a.dataOk → a.apply allCallbacks helloworldHalf = .ok s1 →
      s1.deref 0 = some c1 → 10 ≤ c1.GetWriteBufferSize)) :=
  ⟨rfl, write_buffer_capacity_never_shrinks allCallbacks helloworldHalf 0 _ rfl⟩

/-! ## Callbacks and what the engine does -/

theorem engineActions_emitIf_callback (s : Engine) (g : Bool) (e : Event)
    (he : e.callback.isSome = true) :
    engineActions (s.emitIf g e).trace = engineActions s.trace := by
  cases g
  · rfl
  · cases hc : e.callback with
    | none => simp [hc] at he
    | some k => simp [Engine.emitIf, Engine.emit, engineActions, List.filter_append, hc]

theorem engineActions_emit (s : Engine) (e : Event) :
    engineActions (s.emit e).trace = engineActions s.trace ++ engineActions [e] := by
  simp [Engine.emit, engineActions, List.filter_append]

theorem heap_emitIf (s : Engine) (g : Bool) (e : Event) : (s.emitIf g e).heap = s.heap := by
  cases g <;> rfl

/-- C18: for every state and completion whose operation context refers to
a live Connection, two Contexts that differ only in which callbacks are set
lead to the same heap (so the same counters, buffers and deleted
Connections) and to the same engine actions in the trace (sends, re-arming
of the Acceptor, deletions); and a zero-byte Read or Write completion
deletes the Connection whether or not a disconnected-callback is set. -/
theorem engine_state_independent_of_callbacks (ctx1 ctx2 : Context) (s : Engine)
    (bytes_transferred : Nat) (overlapped : Option Overlapped)
    (hacc : ctx1._acceptor = ctx2._acceptor)
    (hlive : ∀ ov ∈ overlapped, ∃ c, s.deref ov.connection = some c) :
    ∃ s1 s2, MainLoop.body ctx1 s bytes_transferred overlapped = .ok s1 ∧
      MainLoop.body ctx2 s bytes_transferred overlapped = .ok s2 ∧
      s1.heap = s2.heap ∧ engineActions s1.trace = engineActions s2.trace ∧
      (∀ ov ∈ overlapped, bytes_transferred = 0 → (ov.type = .Read ∨ ov.type = .Write) →
        s1.deref ov.connection = none ∧ Event.Delete ov.connection ∈ s1.trace) := by
  cases overlapped with
  | none => exact ⟨s, s, rfl, rfl, rfl, rfl, by simp⟩
  | some ov =>
    obtain ⟨type, conn⟩ := ov
    obtain ⟨c, hc⟩ := hlive ⟨type, conn⟩ rfl
    have hzero : (type = .Read ∨ type = .Write) → bytes_transferred = 0 →
        ∃ s1 s2, MainLoop.body ctx1 s bytes_transferred (some ⟨type, conn⟩) = .ok s1 ∧
          MainLoop.body ctx2 s bytes_transferred (some ⟨type, conn⟩) = .ok s2 ∧
          s1.heap = s2.heap ∧ engineActions s1.trace = engineActions s2.trace ∧
          (∀ ov ∈ some (Overlapped.mk type conn), bytes_transferred = 0 →
            (ov.type = .Read ∨ ov.type = .Write) →
            s1.deref ov.connection = none ∧ Event.Delete ov.connection ∈ s1.trace) := by
      intro hk hz
      subst hz
      refine ⟨_, _, body_zero ctx1 hk hc, body_zero ctx2 hk hc, ?_, ?_, ?_⟩
      · simp [Engine.emit, Engine.free, heap_emitIf]
      · rw [engineActions_emit, engineActions_emit]
        congr 1
        show engineActions ({ (s.emitIf ctx1.OnDisconnected (.OnDisconnected conn)) with
            heap := _ }).trace = engineActions ({ (s.emitIf ctx2.OnDisconnected
              (.OnDisconnected conn)) with heap := _ }).trace
        simp only
        rw [engineActions_emitIf_callback s ctx1.OnDisconnected (.OnDisconnected conn) rfl,
          engineActions_emitIf_callback s ctx2.OnDisconnected (.OnDisconnected conn) rfl]
      · intro ov hov _ _
        simp at hov
        subst hov
        exact ⟨(Engine.deref_emit _ _ _).trans (Engine.deref_free_self _ _),
          by simp [Engine.emit]⟩
    cases type with
    | Accept =>
      refine ⟨_, _, body_accept ctx1 s conn _, body_accept ctx2 s conn _, rfl, ?_, ?_⟩
      · rw [hacc]
        cases ctx2._acceptor <;> cases ctx1.OnConnected <;> cases ctx2.OnConnected <;>
          simp [engineActions, List.filter_append, Event.callback]
      · intro ov hov _ hk
        simp at hov
        subst hov
        simp at hk
    | Connect =>
      refine ⟨_, _, body_connect ctx1 s conn _, body_connect ctx2 s conn _, rfl, ?_, ?_⟩
      · cases ctx1.OnConnected <;> cases ctx2.OnConnected <;>
          simp [engineActions, List.filter_append, Event.callback]
      · intro ov hov _ hk
        simp at hov
        subst hov
        simp at hk
    | Read =>
      by_cases hz : bytes_transferred = 0
      · exact hzero (Or.inl rfl) hz
      · refine ⟨_, _, body_read ctx1 hc hz, body_read ctx2 hc hz, ?_, ?_, ?_⟩
        · rw [heap_emitIf, heap_emitIf]
        · rw [engineActions_emitIf_callback s ctx1.OnRead
              (.OnRead conn c.readBuffer bytes_transferred) rfl,
            engineActions_emitIf_callback s ctx2.OnRead
              (.OnRead conn c.readBuffer bytes_transferred) rfl]
        · intro ov _ h0 _
          exact absurd h0 hz
    | Write =>
      by_cases hz : bytes_transferred = 0
      · exact hzero (Or.inr rfl) hz
      · by_cases hlt : (c.sentBytes + bytes_transferred) % SIZE_T_MOD < c.totalBytes
        · refine ⟨_, _, body_write_resubmit ctx1 hc hz hlt, body_write_resubmit ctx2 hc hz hlt,
            rfl, rfl, ?_⟩
          intro ov _ h0 _
          exact absurd h0 hz
        · refine ⟨_, _, body_write_done ctx1 hc hz hlt, body_write_done ctx2 hc hz hlt,
            ?_, ?_, ?_⟩
          · rw [heap_emitIf, heap_emitIf]
          · rw [engineActions_emitIf_callback _ ctx1.OnWrite
                (.OnWrite conn bytes_transferred) rfl,
              engineActions_emitIf_callback _ ctx2.OnWrite
                (.OnWrite conn bytes_transferred) rfl]
          · intro ov _ h0 _
            exact absurd h0 hz

/-- C18, at a concrete input: a zero-byte Read completion, dispatched with
no callback set and with all callbacks set. -/
theorem engine_state_independent_of_callbacks_witness :
    ({ Context.new with _acceptor := true } : Context)._acceptor = allCallbacks._acceptor ∧
    (∀ ov ∈ some (Overlapped.mk .Read 0), ∃ c, freshEngine.deref ov.connection = some c) ∧
    ∃ s1 s2, MainLoop.body { Context.new with _acceptor := true } freshEngine 0
        (some (Overlapped.mk .Read 0)) = .ok s1 ∧
      MainLoop.body allCallbacks freshEngine 0 (some (Overlapped.mk .Read 0)) = .ok s2 ∧
      s1.heap = s2.heap ∧ engineActions s1.trace = engineActions s2.trace ∧
      (∀ ov ∈ some (Overlapped.mk .Read 0), 0 = 0 → (ov.type = .Read ∨ ov.type = .Write) →
        s1.deref ov.connection = none ∧ Event.Delete ov.connection ∈ s1.trace) :=
  ⟨rfl, fun ov hov => ⟨freshConnection, by simp at hov; subst hov; rfl⟩,
    engine_state_independent_of_callbacks { Context.new with _acceptor := true } allCallbacks
      freshEngine 0 (some (Overlapped.mk .Read 0)) rfl
      (fun ov hov => ⟨freshConnection, by simp at hov; subst hov; rfl⟩)⟩

/-- C19: a completion dispatched on a live Connection appends to the trace
events of which the callback invocations are exactly `invoked ctx k`, where
`k` is the callback that `classify` selects from the kind of the operation,
whether `bytes_transferred` is zero, and whether the advanced `sent_bytes`
is below `total_bytes`: at most one invocation, of the selected callback,
made when the Context has that callback set. -/
theorem at_most_one_callback_per_completion (ctx : Context) (s : Engine)
    (type : OverlappedType) (conn : ConnPtr) (c : Connection) (bytes_transferred : Nat)
    (hlive : s.deref conn = some c) :
    ∃ s1 evs, MainLoop.body ctx s bytes_transferred
        (some { type := type, connection := conn }) = .ok s1 ∧
      s1.trace = s.trace ++ evs ∧
      evs.filterMap Event.callback =
        invoked ctx (classify type (decide (bytes_transferred = 0))
          (decide ((c.sentBytes + bytes_transferred) % SIZE_T_MOD < c.totalBytes))) ∧
      (evs.filterMap Event.callback).length ≤ 1 := by
  have hzero : (type = .Read ∨ type = .Write) → bytes_transferred = 0 →
      ∃ s1 evs, MainLoop.body ctx s bytes_transferred
          (some { type := type, connection := conn }) = .ok s1 ∧
        s1.trace = s.trace ++ evs ∧
        evs.filterMap Event.callback = invoked ctx (some .Disconnected) ∧
        (evs.filterMap Event.callback).length ≤ 1 := by
    intro hk hz
    subst hz
    refine ⟨_, (if ctx.OnDisconnected then [Event.OnDisconnected conn] else []) ++
      [.Delete conn], body_zero ctx hk hlive, ?_, ?_, ?_⟩
    · cases ctx.OnDisconnected <;> simp [Engine.emitIf, Engine.emit, Engine.free]
    · cases h : ctx.OnDisconnected <;>
        simp [invoked, Context.isSet, h, Event.callback]
    · cases h : ctx.OnDisconnected <;> simp [Event.callback]
  cases type with
  | Accept =>
    refine ⟨_, _, body_accept ctx s conn _, List.append_assoc _ _ _, ?_, ?_⟩
    · cases h1 : ctx._acceptor <;> cases h2 : ctx.OnConnected <;>
        simp [invoked, classify, Context.isSet, h2, Event.callback]
    · cases h1 : ctx._acceptor <;> cases h2 : ctx.OnConnected <;> simp [Event.callback]
  | Connect =>
    refine ⟨_, _, body_connect ctx s conn _, rfl, ?_, ?_⟩
    · cases h2 : ctx.OnConnected <;>
        simp [invoked, classify, Context.isSet, h2, Event.callback]
    · cases h2 : ctx.OnConnected <;> simp [Event.callback]
  | Read =>
    by_cases hz : bytes_transferred = 0
    · obtain ⟨s1, evs, h1, h2, h3, h4⟩ := hzero (Or.inl rfl) hz
      exact ⟨s1, evs, h1, h2, by rw [h3]; simp [classify, hz], h4⟩
    · refine ⟨_, if ctx.OnRead then [Event.OnRead conn c.readBuffer bytes_transferred] else [],
        body_read ctx hlive hz, ?_, ?_, ?_⟩
      · cases ctx.OnRead <;> simp [Engine.emitIf, Engine.emit]
      · cases h : ctx.OnRead <;>
          simp [invoked, classify, Context.isSet, h, hz, Event.callback]
      · cases h : ctx.OnRead <;> simp [Event.callback]
  | Write =>
    by_cases hz : bytes_transferred = 0
    · obtain ⟨s1, evs, h1, h2, h3, h4⟩ := hzero (Or.inr rfl) hz
      exact ⟨s1, evs, h1, h2, by rw [h3]; simp [classify, hz], h4⟩
    · by_cases hlt : (c.sentBytes + bytes_transferred) % SIZE_T_MOD < c.totalBytes
      · refine ⟨_, _, body_write_resubmit ctx hlive hz hlt, rfl, ?_, ?_⟩
        · simp [invoked, classify, hz, hlt, Event.callback]
        · simp [Event.callback]
      · refine ⟨_, if ctx.OnWrite then [Event.OnWrite conn bytes_transferred] else [],
          body_write_done ctx hlive hz hlt, ?_, ?_, ?_⟩
        · cases ctx.OnWrite <;> simp [Engine.emitIf, Engine.emit, Engine.store]
        · cases h : ctx.OnWrite <;>
            simp [invoked, classify, Context.isSet, h, hz, hlt, Event.callback]
        · cases h : ctx.OnWrite <;> simp [Event.callback]

/-- C19, at a concrete input: the completion of the last 6 bytes of the
HELLOWORLD scenario. -/
theorem at_most_one_callback_per_completion_witness :
    helloworldHalf.deref 0 =
      some { readBuffer := [0, 0, 0, 0], writeBuffer := HELLOWORLD,
             sentBytes := 4, totalBytes := 10,
             readOverlapped := { len := 0, buf := 0 },
             writeOverlapped := { len := 6, buf := 4 } } ∧
    ∃ s1 evs, MainLoop.body allCallbacks helloworldHalf 6
        (some { type := .Write, connection := 0 }) = .ok s1 ∧
      s1.trace = helloworldHalf.trace ++ evs ∧
      evs.filterMap Event.callback =
        invoked allCallbacks (classify .Write (decide (6 = 0))
          (decide ((4 + 6) % SIZE_T_MOD < 10))) ∧
      (evs.filterMap Event.callback).length ≤ 1 :=
  ⟨rfl, at_most_one_callback_per_completion allCallbacks helloworldHalf .Write 0 _ 6 rfl⟩

/-! ## Termination of the continuation -/

/-- A run of Write completions that fit the sends in flight, started in a
state where a send is in flight whose descriptor has the length of what is
still to send (reduced to 32 bits): the run does not fault, `sent_bytes`
advances by the sum of the byte counts without passing `total_bytes`, and
the sends resubmitted plus the bytes still to send never exceed what was
still to send at the start. -/
theorem completionsFit_run (ctx : Context) (conn : ConnPtr) :
    ∀ (bs : List Nat) (s : Engine) (c : Connection),
      s.deref conn = some c → c.sentBytes < c.totalBytes → c.totalBytes < SIZE_T_MOD →
      c.writeOverlapped.len = (c.totalBytes - c.sentBytes) % DWORD_MOD →
      completionsFit ctx conn s bs = true →
      ∃ s1 c1, MainLoop ctx s (bs.map (completion .Write conn)) =
          .ok { engine := s1, returned := false } ∧
        s1.deref conn = some c1 ∧ c1.totalBytes = c.totalBytes ∧
        c1.sentBytes = c.sentBytes + bs.sum ∧ c1.sentBytes ≤ c1.totalBytes ∧
        (∀ b ∈ bs, 0 < b) ∧
        sendCalls s1.trace + (c1.totalBytes - c1.sentBytes) +
            (if c1.sentBytes = c1.totalBytes then 1 else 0) ≤
          sendCalls s.trace + (c.totalBytes - c.sentBytes) ∧
        writeCalls s1.trace = writeCalls s.trace +
          (if c1.sentBytes = c1.totalBytes ∧ ctx.OnWrite = true then 1 else 0)
  | [], s, c, hlive, hlt, _, _, _ => by
    refine ⟨s, c, by simp [MainLoop], hlive, rfl, by simp, Nat.le_of_lt hlt, by simp, ?_, ?_⟩
    · simp [Nat.ne_of_lt hlt]
    · simp [Nat.ne_of_lt hlt]
  | b :: rest, s, c, hlive, hlt, hrange, hlen, hfit => by
    simp only [completionsFit, hlive, Bool.and_eq_true, decide_eq_true_eq] at hfit
    obtain ⟨⟨⟨hb, hble⟩, _⟩, hrest⟩ := hfit
    have hrem : b ≤ c.totalBytes - c.sentBytes := by
      rw [hlen] at hble
      exact Nat.le_trans hble (Nat.mod_le _ _)
    by_cases hmore : c.sentBytes + b < c.totalBytes
    · have hstep := body_write_continue ctx hlive hb hmore hrange
      rw [hstep] at hrest
      simp only at hrest
      have hlive1 := Engine.deref_store_self hlive { c with
        sentBytes := c.sentBytes + b
        writeOverlapped :=
          { len := (c.totalBytes - (c.sentBytes + b)) % DWORD_MOD, buf := c.sentBytes + b } }
      obtain ⟨s1, c1, hrun, hl1, ht1, hs1, hle1, hpos1, hsend1, hcall1⟩ :=
        completionsFit_run ctx conn rest _ _
          ((Engine.deref_emit _ (.WSASend conn
            { len := (c.totalBytes - (c.sentBytes + b)) % DWORD_MOD,
              buf := c.sentBytes + b }) conn).trans hlive1)
          hmore hrange rfl hrest
      refine ⟨s1, c1, ?_, hl1, ht1, ?_, hle1, ?_, ?_, ?_⟩
      · simp only [List.map_cons, MainLoop, completion, if_true]
        rw [hstep]
        exact hrun
      · rw [hs1]
        simp only [List.sum_cons]
        show c.sentBytes + b + rest.sum = c.sentBytes + (b + rest.sum)
        omega
      · intro x hx
        rcases List.mem_cons.mp hx with h | h
        · rw [h]; exact hb
        · exact hpos1 x h
      · have hsc : sendCalls ((s.store conn { c with
            sentBytes := c.sentBytes + b
            writeOverlapped :=
              { len := (c.totalBytes - (c.sentBytes + b)) % DWORD_MOD,
                buf := c.sentBytes + b } }).emit (.WSASend conn
              { len := (c.totalBytes - (c.sentBytes + b)) % DWORD_MOD,
                buf := c.sentBytes + b })).trace = sendCalls s.trace + 1 := by
          simp [Engine.emit, Engine.store, sendCalls, isWSASend]
        rw [hsc] at hsend1
        have ht1c : c1.totalBytes = c.totalBytes := ht1
        have : (c.totalBytes - (c.sentBytes + b)) + 1 ≤ c.totalBytes - c.sentBytes := by omega
        calc sendCalls s1.trace + (c1.totalBytes - c1.sentBytes) +
              (if c1.sentBytes = c1.totalBytes then 1 else 0)
            ≤ sendCalls s.trace + 1 + (c.totalBytes - (c.sentBytes + b)) := hsend1
          _ ≤ sendCalls s.trace + (c.totalBytes - c.sentBytes) := by omega
      · rw [hcall1]
        simp [Engine.emit, Engine.store, writeCalls, isOnWrite]
    · have heq : c.sentBytes + b = c.totalBytes := by omega
      have hstep := body_write_finish ctx hlive hb heq hrange
      rw [hstep] at hrest
      simp only at hrest
      have hlive1 : ((s.store conn { c with sentBytes := c.totalBytes }).emitIf ctx.OnWrite
          (.OnWrite conn b)).deref conn = some { c with sentBytes := c.totalBytes } :=
        (Engine.deref_emitIf _ _ _ conn).trans (Engine.deref_store_self hlive _)
      have hnil : rest = [] := by
        cases rest with
        | nil => rfl
        | cons x xs => simp [completionsFit, hlive1] at hrest
      subst hnil
      refine ⟨_, _, ?_, hlive1, rfl, ?_, Nat.le_refl _, ?_, ?_, ?_⟩
      · simp [MainLoop, completion, hstep]
      · simp only [List.sum_cons, List.sum_nil]
        show c.totalBytes = c.sentBytes + (b + 0)
        omega
      · intro x hx
        simp at hx
        rw [hx]; exact hb
      · have hsc : sendCalls ((s.store conn { c with sentBytes := c.totalBytes }).emitIf
            ctx.OnWrite (.OnWrite conn b)).trace = sendCalls s.trace := by
          cases ctx.OnWrite <;> simp [Engine.emitIf, Engine.emit, Engine.store, sendCalls,
            isWSASend]
        rw [hsc]
        simp
        omega
      · cases h : ctx.OnWrite <;>
          simp [Engine.emitIf, Engine.emit, Engine.store, writeCalls, isOnWrite]

theorem completionsFit_append (ctx : Context) (conn : ConnPtr) :
    ∀ (xs ys : List Nat) (s : Engine), completionsFit ctx conn s (xs ++ ys) = true →
      completionsFit ctx conn s xs = true
  | [], _, _, _ => rfl
  | x :: xs, ys, s, h => by
    simp only [List.cons_append, completionsFit] at h ⊢
    cases hd : s.deref conn with
    | none => simp [hd] at h
    | some c =>
      simp only [hd, Bool.and_eq_true] at h ⊢
      refine ⟨h.1, ?_⟩
      cases hb : MainLoop.body ctx s x (some { type := .Write, connection := conn }) with
      | error f => simp [hb] at h
      | ok s1 =>
        have h2 := h.2
        simp only [hb] at h2
        exact completionsFit_append ctx conn xs ys s1 h2

/-- C20: after `AsyncWrite(conn, data, size)` with `size ≥ 1`, along any
sequence of Write completions that fit the sends in flight (each nonzero and
not above the length last submitted) `MainLoop` never faults, `sent_bytes`
is the sum of the byte counts and stays at most `size`, the engine
resubmits at most `size - 1` sends, there are at most `size` completions,
and the write-complete callback is invoked (once, when set) exactly when the
sum reaches `size`; and each such completion strictly decreases
`total_bytes - sent_bytes`. -/
theorem continuation_terminates (ctx : Context) (s : Engine) (conn : ConnPtr)
    (c : Connection) (data : List Byte) (size : Nat)
    (hlive : s.deref conn = some c) (hsize : 1 ≤ size) (hrange : size < SIZE_T_MOD) :
    ∃ s0, AsyncWrite s conn data size = .ok s0 ∧
      (∀ bs, completionsFit ctx conn s0 bs = true →
        ∃ s1 c1, MainLoop ctx s0 (bs.map (completion .Write conn)) =
            .ok { engine := s1, returned := false } ∧
          s1.deref conn = some c1 ∧ c1.totalBytes = size ∧ c1.sentBytes = bs.sum ∧
          bs.sum ≤ size ∧ bs.length ≤ size ∧
          sendCalls s1.trace ≤ sendCalls s0.trace + (size - 1) ∧
          writeCalls s1.trace = writeCalls s0.trace +
            (if bs.sum = size ∧ ctx.OnWrite = true then 1 else 0)) ∧
      (∀ pre b, completionsFit ctx conn s0 (pre ++ [b]) = true →
        ∃ s1 c1 s2 c2, MainLoop ctx s0 (pre.map (completion .Write conn)) =
            .ok { engine := s1, returned := false } ∧
          s1.deref conn = some c1 ∧
          MainLoop.body ctx s1 b (some { type := .Write, connection := conn }) = .ok s2 ∧
          s2.deref conn = some c2 ∧
          c2.totalBytes - c2.sentBytes < c1.totalBytes - c1.sentBytes) := by
  have hmod : size % SIZE_T_MOD = size := Nat.mod_eq_of_lt hrange
  have hlive0 : ((s.store conn (AsyncWrite.update c data size)).emit
      (.WSASend conn { len := size % DWORD_MOD, buf := 0 })).deref conn =
      some (AsyncWrite.update c data size) :=
    (Engine.deref_emit _ _ conn).trans (Engine.deref_store_self hlive _)
  have hs0 : (AsyncWrite.update c data size).sentBytes = 0 := update_sentBytes _ _ _
  have ht0 : (AsyncWrite.update c data size).totalBytes = size := by
    rw [update_totalBytes, hmod]
  have hlen0 : (AsyncWrite.update c data size).writeOverlapped.len =
      ((AsyncWrite.update c data size).totalBytes -
        (AsyncWrite.update c data size).sentBytes) % DWORD_MOD := by
    rw [hs0, ht0]
    rfl
  have key := fun bs => completionsFit_run ctx conn bs _ _ hlive0
    (by rw [hs0, ht0]; omega) (by rw [ht0]; exact hrange) hlen0
  refine ⟨_, AsyncWrite_ok hlive data size, ?_, ?_⟩
  · intro bs hfit
    obtain ⟨s1, c1, hrun, hl1, ht1, hsum1, hle1, hpos1, hsend1, hcall1⟩ := key bs hfit
    rw [hs0, ht0] at hsend1
    rw [ht0] at ht1
    rw [hs0, Nat.zero_add] at hsum1
    rw [ht1, hsum1] at hle1 hsend1 hcall1
    have hlen : bs.length ≤ bs.sum := by
      clear hfit hrun hsum1 hle1 hsend1 hcall1
      induction bs with
      | nil => simp
      | cons x xs ih =>
        have hx := hpos1 x (by simp)
        have := ih (fun y hy => hpos1 y (by simp [hy]))
        simp only [List.length_cons, List.sum_cons]
        omega
    refine ⟨s1, c1, hrun, hl1, ht1, hsum1, hle1, Nat.le_trans hlen hle1, ?_, hcall1⟩
    by_cases hdone : bs.sum = size
    · simp [hdone] at hsend1
      omega
    · simp [hdone] at hsend1
      omega
  · intro pre b hfit
    obtain ⟨s1, c1, hrun1, hl1, ht1, hsum1, _, _, _, _⟩ :=
      key pre (completionsFit_append ctx conn pre [b] _ hfit)
    obtain ⟨s2, c2, hrun2, hl2, ht2, hsum2, hle2, hpos2, _, _⟩ := key (pre ++ [b]) hfit
    have hb : 0 < b := hpos2 b (by simp)
    rw [List.map_append, MainLoop_append ctx _ _ _ _ hrun1] at hrun2
    simp only [List.map_cons, List.map_nil, MainLoop, completion, if_true] at hrun2
    cases hbody : MainLoop.body ctx s1 b (some { type := .Write, connection := conn }) with
    | error f => simp [hbody] at hrun2
    | ok s3 =>
      simp only [hbody] at hrun2
      injection hrun2 with hrun2
      injection hrun2 with hrun2
      subst hrun2
      refine ⟨s1, c1, s3, c2, hrun1, hl1, hbody, hl2, ?_⟩
      rw [ht0] at ht1 ht2
      rw [hs0, Nat.zero_add] at hsum1 hsum2
      rw [ht2, hsum2] at hle2
      rw [ht1, ht2, hsum1, hsum2]
      simp only [List.sum_append, List.sum_cons, List.sum_nil] at hle2 ⊢
      omega

/-- C20, at a concrete input: a write of the ten bytes of HELLOWORLD. -/
theorem continuation_terminates_witness :
    freshEngine.deref 0 = some freshConnection ∧ 1 ≤ 10 ∧ 10 < SIZE_T_MOD ∧
    ∃ s0, AsyncWrite freshEngine 0 HELLOWORLD 10 = .ok s0 ∧
      (∀ bs, completionsFit allCallbacks 0 s0 bs = true →
        ∃ s1 c1, MainLoop allCallbacks s0 (bs.map (completion .Write 0)) =
            .ok { engine := s1, returned := false } ∧
          s1.deref 0 = some c1 ∧ c1.totalBytes = 10 ∧ c1.sentBytes = bs.sum ∧
          bs.sum ≤ 10 ∧ bs.length ≤ 10 ∧
          sendCalls s1.trace ≤ sendCalls s0.trace + (10 - 1) ∧
          writeCalls s1.trace = writeCalls s0.trace +
            (if bs.sum = 10 ∧ allCallbacks.OnWrite = true then 1 else 0)) ∧
      (∀ pre b, completionsFit allCallbacks 0 s0 (pre ++ [b]) = true →
        ∃ s1 c1 s2 c2, MainLoop allCallbacks s0 (pre.map (completion .Write 0)) =
            .ok { engine := s1, returned := false } ∧
          s1.deref 0 = some c1 ∧
          MainLoop.body allCallbacks s1 b (some { type := .Write, connection := 0 }) =
            .ok s2 ∧
          s2.deref 0 = some c2 ∧
          c2.totalBytes - c2.sentBytes < c1.totalBytes - c1.sentBytes) :=
  ⟨rfl, by decide, by decide,
    continuation_terminates allCallbacks freshEngine 0 freshConnection HELLOWORLD 10 rfl
      (by decide) (by decide)⟩

/-- The sequence 4, 6 of the HELLOWORLD scenario fits the sends in flight,
and so does the slowest one, ten completions of one byte. -/
theorem helloworld_completions_fit :
    completionsFit allCallbacks 0 helloworldStart [4, 6] = true ∧
    completionsFit allCallbacks 0 helloworldStart [1, 1, 1, 1, 1, 1, 1, 1, 1, 1] = true := by
  decide

/-- The scenario of C17 evaluated: the Read completion before the failed
dequeue is dispatched, the Write context that the failed dequeue carries and
the completion after it are not, and the loop has returned. -/
theorem MainLoop_failure_scenario :
    MainLoop allCallbacks freshEngine
        [completion .Read 0 3,
         { result := false, bytes_transferred := 5,
           overlapped := some { type := .Write, connection := 0 } },
         completion .Read 0 2] =
      .ok { engine := { freshEngine with trace := [.OnRead 0 [0, 0, 0, 0] 3] },
            returned := true } := by
  decide

/-- C9, amended: for every `size ≥ 1`, after `AsyncWrite(conn, data, size)`
completed by Write completions with nonzero byte counts summing to `size`,
the write-complete callback has been invoked exactly once and the
Connection is still alive, with `sent_bytes = total_bytes = size`; whereas
after `AsyncWrite(conn, data, 0)` the zero-byte completion of the empty send
falls under the zero-byte rule: the Connection is deleted, with the
disconnected-callback invoked when set, and the write-complete callback is
not invoked. -/
theorem write_callback_once_per_nonempty_write (ctx : Context) (s : Engine) (conn : ConnPtr)
    (c : Connection) (data : List Byte) (size : Nat) (pre : List Nat) (last : Nat)
    (hcb : ctx.OnWrite = true) (hlive : s.deref conn = some c)
    (hsize : 1 ≤ size) (hrange : size < SIZE_T_MOD)
    (hpre : ∀ b ∈ pre, 0 < b) (hlast : 0 < last) (hsum : pre.sum + last = size) :
    (∃ s0 s2 c2, AsyncWrite s conn data size = .ok s0 ∧
      MainLoop ctx s0 ((pre ++ [last]).map (completion .Write conn)) =
        .ok { engine := s2, returned := false } ∧
      writeCalls s2.trace = writeCalls s.trace + 1 ∧
      Event.Delete conn ∉ s2.trace.drop s.trace.length ∧
      s2.deref conn = some c2 ∧ c2.sentBytes = size ∧ c2.totalBytes = size ∧
      1 ≤ c2.totalBytes) ∧
    (∃ s0 s1, AsyncWrite s conn data 0 = .ok s0 ∧
      MainLoop ctx s0 [completion .Write conn 0] = .ok { engine := s1, returned := false } ∧
      s1.trace = s.trace ++ .WSASend conn { len := 0, buf := 0 } ::
        ((if ctx.OnDisconnected then [Event.OnDisconnected conn] else []) ++
          [.Delete conn]) ∧
      writeCalls s1.trace = writeCalls s.trace ∧
      s1.deref conn = none) := by
  constructor
  · obtain ⟨s0, s1, c1, h0, hrun, hl1, hs1, ht1, htr1⟩ :=
      AsyncWrite_then_continuations ctx hlive data hrange hpre (by omega)
    have hfin := body_write_finish ctx hl1 hlast (by rw [hs1, ht1]; exact hsum)
      (by rw [ht1]; exact hrange)
    have htr2 : ((s1.store conn { c1 with sentBytes := c1.totalBytes }).emitIf ctx.OnWrite
        (.OnWrite conn last)).trace = s.trace ++
          (.WSASend conn { len := size % DWORD_MOD, buf := 0 } ::
          (continuationSends conn size 0 pre ++ [.OnWrite conn last])) := by
      simp [Engine.emitIf, hcb, Engine.emit, Engine.store, htr1]
    have hsends : ∀ (bs : List Nat) (sent : Nat),
        Event.Delete conn ∉ continuationSends conn size sent bs := by
      intro bs
      induction bs with
      | nil => intro sent; simp [continuationSends]
      | cons b bs ih =>
        intro sent
        simp only [continuationSends, List.mem_cons, not_or]
        exact ⟨by simp, ih (sent + b)⟩
    refine ⟨s0, (s1.store conn { c1 with sentBytes := c1.totalBytes }).emitIf ctx.OnWrite
        (.OnWrite conn last), { c1 with sentBytes := c1.totalBytes }, h0, ?_, ?_, ?_,
      (Engine.deref_emitIf _ _ _ conn).trans (Engine.deref_store_self hl1 _), ht1, ht1,
      by rw [ht1]; exact hsize⟩
    · rw [List.map_append, MainLoop_append ctx _ _ _ _ hrun]
      simp [MainLoop, completion, hfin]
    · rw [htr2]
      have := writeCalls_continuationSends conn size pre 0
      simp only [writeCalls] at this ⊢
      simp [isOnWrite, this]
    · rw [htr2, List.drop_left]
      simp [hsends pre 0]
  · have hl0 : ((s.store conn (AsyncWrite.update c data 0)).emit
        (.WSASend conn { len := 0 % DWORD_MOD, buf := 0 })).deref conn =
        some (AsyncWrite.update c data 0) :=
      (Engine.deref_emit _ _ conn).trans (Engine.deref_store_self hlive _)
    have hbody := body_zero ctx (Or.inr rfl) hl0
    refine ⟨_, (((((s.store conn (AsyncWrite.update c data 0)).emit
        (.WSASend conn { len := 0 % DWORD_MOD, buf := 0 })).emitIf ctx.OnDisconnected
        (.OnDisconnected conn)).free conn).emit (.Delete conn)),
      AsyncWrite_ok hlive data 0, ?_, ?_, ?_, ?_⟩
    · simp only [MainLoop, completion, if_true]
      rw [hbody]
    · cases ctx.OnDisconnected <;>
        simp [Engine.emitIf, Engine.emit, Engine.free, Engine.store]
    · cases ctx.OnDisconnected <;>
        simp [Engine.emitIf, Engine.emit, Engine.free, Engine.store, writeCalls, isOnWrite]
    · rw [Engine.deref_emit, Engine.deref_free_self]

/-- C9 amended, at a concrete input: a write of three bytes completed by 1
and then 2 bytes. -/
theorem write_callback_once_per_nonempty_write_witness :
    allCallbacks.OnWrite = true ∧ freshEngine.deref 0 = some freshConnection ∧
    1 ≤ 3 ∧ 3 < SIZE_T_MOD ∧ (∀ b ∈ [1], 0 < b) ∧ 0 < 2 ∧ [1].sum + 2 = 3 ∧
    ((∃ s0 s2 c2, AsyncWrite freshEngine 0 [7, 8, 9] 3 = .ok s0 ∧
      MainLoop allCallbacks s0 (([1] ++ [2]).map (completion .Write 0)) =
        .ok { engine := s2, returned := false } ∧
      writeCalls s2.trace = writeCalls freshEngine.trace + 1 ∧
      Event.Delete 0 ∉ s2.trace.drop freshEngine.trace.length ∧
      s2.deref 0 = some c2 ∧ c2.sentBytes = 3 ∧ c2.totalBytes = 3 ∧
      1 ≤ c2.totalBytes) ∧
    (∃ s0 s1, AsyncWrite freshEngine 0 [7, 8, 9] 0 = .ok s0 ∧
      MainLoop allCallbacks s0 [completion .Write 0 0] =
        .ok { engine := s1, returned := false } ∧
      s1.trace = freshEngine.trace ++ .WSASend 0 { len := 0, buf := 0 } ::
        ((if allCallbacks.OnDisconnected then [Event.OnDisconnected 0] else []) ++
          [.Delete 0]) ∧
      writeCalls s1.trace = writeCalls freshEngine.trace ∧
      s1.deref 0 = none)) :=
  ⟨rfl, rfl, by decide, by decide, by decide, by decide, rfl,
    write_callback_once_per_nonempty_write allCallbacks freshEngine 0 freshConnection
      [7, 8, 9] 3 [1] 2 rfl rfl (by decide) (by decide) (by decide) (by decide) rfl⟩

end Networking
